import Mathlib

/-!
# Verification of `memcheck_merge.py`

A shallow embedding of the memcheck XML merge tool.  The program scans a
directory for `*.xml` files, parses each with `xml.dom.minidom`, collects
every `error` element (document order, any depth), and splices the collected
nodes into a fixed output template right before a placeholder `<error />`
element, which is then removed.

Modelling choices, justified against the source:
* An XML node is an element (tag, attributes, children) or a text node.
  Each element additionally carries a numeric `id`, a model artifact that
  stands for minidom's node *identity* (object identity of the live DOM
  node).  minidom's `insertBefore` first detaches `newChild` from its
  current parent (`newChild.parentNode.removeChild(newChild)`) and
  `removeChild` / `childNodes.index` locate nodes by object identity, so
  the embedding locates nodes by their unique id.  Theorems about runs
  assume the ids of distinct live nodes are distinct, which is exactly
  what object identity provides.
* A parsed document is represented by its list of root-level children
  (for the template document this is the single `valgrindoutput` element).
* File contents are abstracted to their parse result: `none` models a file
  whose contents raise `ExpatError` in `minidom.parse`, `some doc` a file
  that parses to the document `doc`.
-/

/-- An XML DOM node: an element with an identity tag `id`, a tag name,
attributes and children, or a text node. -/
inductive XNode : Type where
  | elem (id : Nat) (tag : String) (attrs : List (String × String)) (children : List XNode)
  | text (data : String)

mutual

def XNode.deq : (a b : XNode) → Decidable (a = b)
  | .elem i t as c, .elem j u bs d =>
    if h1 : i = j then
      if h2 : t = u then
        if h3 : as = bs then
          match XNode.deqL c d with
          | isTrue h4 => isTrue (by rw [h1, h2, h3, h4])
          | isFalse h4 => isFalse (fun h => by injection h; contradiction)
        else isFalse (fun h => by injection h; contradiction)
      else isFalse (fun h => by injection h; contradiction)
    else isFalse (fun h => by injection h; contradiction)
  | .elem _ _ _ _, .text _ => isFalse (fun h => by injection h)
  | .text _, .elem _ _ _ _ => isFalse (fun h => by injection h)
  | .text s, .text u =>
    if h : s = u then isTrue (by rw [h]) else isFalse (fun hh => by injection hh; contradiction)

def XNode.deqL : (a b : List XNode) → Decidable (a = b)
  | [], [] => isTrue rfl
  | [], _ :: _ => isFalse (fun h => by injection h)
  | _ :: _, [] => isFalse (fun h => by injection h)
  | x :: xs, y :: ys =>
    match XNode.deq x y, XNode.deqL xs ys with
    | isTrue h1, isTrue h2 => isTrue (by rw [h1, h2])
    | isFalse h1, _ => isFalse (fun h => by injection h; contradiction)
    | _, isFalse h2 => isFalse (fun h => by injection h; contradiction)

end

instance : DecidableEq XNode := XNode.deq

/-- Node identity of an element; text nodes have no identity, `0` is returned
as a dummy (all element ids used in this development are positive). -/
def getId : XNode → Nat
  | .elem i _ _ _ => i
  | .text _ => 0

/-- Tag name of an element (`""` for text nodes). -/
def getTag : XNode → String
  | .elem _ t _ _ => t
  | .text _ => ""

/-- The (id, tag) pairs of all elements of a forest, in document order. -/
def pairsF : List XNode → List (Nat × String)
  | [] => []
  | .elem i t _ c :: r => (i, t) :: (pairsF c ++ pairsF r)
  | .text _ :: r => pairsF r

/-- The ids of all elements of a forest, in document order. -/
def idsF (F : List XNode) : List Nat := (pairsF F).map Prod.fst

/-- `doc.getElementsByTagName(name)`: minidom's
`_get_elements_by_tagName_helper` appends each matching element when it is
visited and then recurses into its children, so the result lists matching
elements of the forest in document (preorder) order, at any depth. -/
def getElementsByTagName : List XNode → String → List XNode
  | [], _ => []
  | .elem i t a c :: r, name =>
      (if t = name then [XNode.elem i t a c] else [])
        ++ getElementsByTagName c name ++ getElementsByTagName r name
  | .text _ :: r, name => getElementsByTagName r name

/-- All elements of a forest in document (preorder) order, used to state
that `getElementsByTagName` filters the preorder traversal. -/
def preorderElems : List XNode → List XNode
  | [] => []
  | .elem i t a c :: r => XNode.elem i t a c :: (preorderElems c ++ preorderElems r)
  | .text _ :: r => preorderElems r

/-- Detach the element with identity `j` from a forest:
`newChild.parentNode.removeChild(newChild)` in minidom, which removes the
(unique) live node from wherever it currently sits.  Returns the detached
subtree (if found, searching document order) and the forest without it. -/
def detachF (j : Nat) : List XNode → Option XNode × List XNode
  | [] => (none, [])
  | .elem i t a c :: r =>
      if i = j then (some (.elem i t a c), r)
      else
        match detachF j c with
        | (some x, c') => (some x, .elem i t a c' :: r)
        | (none, _) =>
            match detachF j r with
            | (x, r') => (x, .elem i t a c :: r')
  | .text s :: r =>
      match detachF j r with
      | (x, r') => (x, .text s :: r')

/-- `parent_node.insertBefore(n, refChild)` on the child list of the parent:
minidom computes `childNodes.index(refChild)` (identity-based) and inserts
`n` at that position.  If the reference child is absent minidom raises
`NotFoundErr`; that branch is unreachable in this program (the placeholder
stays a child of the template root until it is removed), and is modelled by
appending at the end. -/
def insertBeforeTop (ref : Nat) (n : XNode) : List XNode → List XNode
  | [] => [n]
  | m :: r => if getId m = ref then n :: m :: r else m :: insertBeforeTop ref n r

/-- `parent_node.removeChild(refChild)` on the child list of the parent:
removes the (identity-unique) child. -/
def removeChildTop (ref : Nat) : List XNode → List XNode
  | [] => []
  | m :: r => if getId m = ref then r else m :: removeChildTop ref r

/-- State of the merge step: the forest formed by the root-level children of
all parsed source documents (still alive in memory), and the child list of
the template root `valgrindoutput`, into which error nodes are moved. -/
structure MergeState where
  sources : List XNode
  outChildren : List XNode
deriving DecidableEq

/-- A single-quote character, as a string (avoids a literal quote in the
template transcription below). -/
def apos : String := String.singleton (Char.ofNat 39)

/-- One iteration of
`parent_node.insertBefore(error_xml_node, template_error_node)`:
the live node with identity `j` is detached from wherever it currently sits
(its source document, or — if it was nested inside an already-moved error
record — the output document) and inserted before the placeholder. -/
def insertErrorNode (ref : Nat) (st : MergeState) (j : Nat) : MergeState :=
  match detachF j st.sources with
  | (some nd, srcs) => ⟨srcs, insertBeforeTop ref nd st.outChildren⟩
  | (none, _) =>
      match detachF j st.outChildren with
      | (some nd, out) => ⟨st.sources, insertBeforeTop ref nd out⟩
      | (none, _) => st

/-- The `for error_xml_node in error_xml_nodes: parent_node.insertBefore(...)`
loop (a fold over the collected nodes' identities, in collected order). -/
def mergeLoop (ref : Nat) (ids : List Nat) (st : MergeState) : MergeState :=
  ids.foldl (insertErrorNode ref) st

/-! ## The output template

`OUTPUT_FILE_TEMPLATE` is a fixed well-formed XML string; the embedding
transcribes the document that `minidom.parseString` produces from it:
whitespace between elements is kept as text nodes, whitespace outside the
root element is not part of the document, and `<error />` parses to an
element with no children.  Element ids `1`–`33` and `40` are assigned to the
template's elements (all `< 100`; run theorems assume input documents use
ids `≥ 100`, reflecting that freshly parsed input nodes are distinct live
objects from the template's nodes). -/

/-- Identity of the placeholder `<error />` element of the template. -/
def phId : Nat := 40

/-- The placeholder `<error />` element of the template. -/
def phNode : XNode := XNode.elem phId "error" [] []

/-- The `protocolversion` element of the template (the first element child
of the root; used as a positional anchor in proofs). -/
def protoElem : XNode := XNode.elem 2 "protocolversion" [] [XNode.text "4"]

/-- Template root children strictly before the placeholder, after the
`protocolversion` element. -/
def tBrest : List XNode :=
  [ .text "\n",
    .elem 3 "protocoltool" [] [.text "memcheck"],
    .text "\n\n",
    .elem 4 "preamble" []
      [ .text "\n  ",
        .elem 5 "line" [] [.text "Memcheck, a memory error detector"],
        .text "\n  ",
        .elem 6 "line" [] [.text ("Copyright (C) 2002-2015, and GNU GPL" ++ apos ++ "d, by Julian Seward et al.")],
        .text "\n  ",
        .elem 7 "line" [] [.text "Using Valgrind-3.12.0 and LibVEX; rerun with -h for copyright info"],
        .text "\n  ",
        .elem 8 "line" [] [.text "Command: vce --gtest_filter=-*.CheckDebugRoutines"],
        .text "\n" ],
    .text "\n\n",
    .elem 9 "pid" [] [.text "12345"],
    .text "\n",
    .elem 10 "ppid" [] [.text "67890"],
    .text "\n",
    .elem 11 "tool" [] [.text "memcheck"],
    .text "\n\n",
    .elem 12 "args" []
      [ .text "\n  ",
        .elem 13 "vargv" []
          [ .text "\n    ",
            .elem 14 "exe" [] [.text "/ap/local/potatools/valgrind/3.12.0/bin/valgrind"],
            .text "\n    ",
            .elem 15 "arg" [] [.text "--suppressions=.config/valgrind/valgrind.suppress"],
            .text "\n    ",
            .elem 16 "arg" [] [.text "--leak-check=full"],
            .text "\n    ",
            .elem 17 "arg" [] [.text "--child-silent-after-fork=yes"],
            .text "\n    ",
            .elem 18 "arg" [] [.text "--xml=yes"],
            .text "\n    ",
            .elem 19 "arg" [] [.text "--xml-file=memcheck.xml"],
            .text "\n  " ],
        .text "\n  ",
        .elem 20 "argv" []
          [ .text "\n    ",
            .elem 21 "exe" [] [.text "vce"],
            .text "\n    ",
            .elem 22 "arg" [] [.text "--gtest_filter=-*.CheckDebugRoutines"],
            .text "\n  " ],
        .text "\n" ],
    .text "\n\n",
    .elem 23 "status" []
      [ .text "\n  ",
        .elem 24 "state" [] [.text "RUNNING"],
        .text "\n  ",
        .elem 25 "time" [] [.text "00:00:00:00.000 "],
        .text "\n" ],
    .text "\n\n\n",
    .elem 26 "status" []
      [ .text "\n  ",
        .elem 27 "state" [] [.text "FINISHED"],
        .text "\n  ",
        .elem 28 "time" [] [.text "00:00:00:00.000 "],
        .text "\n" ],
    .text "\n\n" ]

/-- Template root children strictly before the placeholder. -/
def tB : List XNode := XNode.text "\n\n" :: protoElem :: tBrest

/-- Template root children strictly after the placeholder. -/
def tA : List XNode :=
  [ .text "\n\n",
    .elem 29 "errorcounts" [] [.text "\n"],
    .text "\n\n",
    .elem 30 "suppcounts" []
      [ .text "\n  ",
        .elem 31 "pair" []
          [ .text "\n    ",
            .elem 32 "count" [] [.text "166"],
            .text "\n    ",
            .elem 33 "name" [] [.text "possibly_lost_in_string_alloc"],
            .text "\n  " ],
        .text "\n" ],
    .text "\n\n" ]

/-- Child list of the template root `<valgrindoutput>`. -/
def templateChildren : List XNode := tB ++ phNode :: tA

/-- The parsed template document (`minidom.parseString(OUTPUT_FILE_TEMPLATE)`),
as its list of document children: the single root element. -/
def output_file_template : List XNode :=
  [XNode.elem 1 "valgrindoutput" [] templateChildren]

/-- `template_error_node = output_file_template.getElementsByTagName('error')[0]`
followed by the `insertBefore` loop and
`parent_node.removeChild(template_error_node)`.  The parent of the
placeholder is the template root, so the mutation acts on the root's
child list. -/
def mergeErrors (error_xml_nodes : List XNode) (sources : List XNode) : List XNode :=
  let st := mergeLoop phId (error_xml_nodes.map getId) ⟨sources, templateChildren⟩
  removeChildTop phId st.outChildren

/-! ## Scanner -/

/-- A candidate input file from the `glob.glob` scan: its path, its
`os.stat(...).st_size`, and its parse result (`none` models `ExpatError`,
`some doc` a successful `minidom.parse` yielding document children `doc`). -/
structure InputFile where
  path : String
  size : Nat
  parsed : Option (List XNode)
deriving DecidableEq

/-- Per-file diagnostics emitted by the scan loop. -/
inductive LogEntry : Type where
  | processing (path : String)
  | foundErrors (n : Nat) (path : String)
  | okPass (path : String)
  | parseFail (path : String)
deriving DecidableEq

/-- `doc.getElementsByTagName('error')` inside the inner `try` block.
`getElementsByTagName` is a total method of every minidom document, so the
call never raises `AttributeError`; the inner `except AttributeError`
handler is modelled by the `Except` error case, which this function never
produces. -/
def tryGetErrors (doc : List XNode) : Except Unit (List XNode) :=
  .ok (getElementsByTagName doc "error")

/-- Scan loop state: collected error nodes, unparsable file paths, log. -/
structure ScanState where
  errorNodes : List XNode
  unparsableFiles : List String
  log : List LogEntry
deriving DecidableEq

/-- The body of `for xml_file in glob.glob(search_pattern)` in `main`. -/
def scanFile (st : ScanState) (f : InputFile) : ScanState :=
  if f.size ≠ 0 then
    let st1 : ScanState := { st with log := st.log ++ [.processing f.path] }
    match f.parsed with
    | some doc =>
        match tryGetErrors doc with
        | .ok errors =>
            if errors ≠ [] then
              { st1 with
                log := st1.log ++ [.foundErrors errors.length f.path],
                errorNodes := st1.errorNodes ++ errors }
            else st1
        | .error _ => { st1 with log := st1.log ++ [.okPass f.path] }
    | none =>
        { st1 with
          log := st1.log ++ [.parseFail f.path],
          unparsableFiles := st1.unparsableFiles ++ [f.path] }
  else st

/-- The whole scan loop, over the files in the order `glob.glob` yields. -/
def scanFiles (files : List InputFile) : ScanState :=
  files.foldl scanFile ⟨[], [], []⟩

/-! ## Result reporting -/

/-- Severity of the summary message. -/
inductive Severity : Type where
  | info
  | error
deriving DecidableEq

/-- `print_results(len_error_xml_nodes, len_unparsable_files)`: builds the
summary message and emits it via `logging.error` or `logging.info`.
Transcribed literally; note `if not error_msg` tests emptiness of the
string, which at that point always starts with `"!!!"`. -/
def print_results (len_error_xml_nodes : Nat) (len_unparsable_files : Nat) :
    Severity × String :=
  let error_msg := "!!!"
  let error_msg :=
    if len_error_xml_nodes > 0 then
      let m := error_msg ++ " Found"
      if len_error_xml_nodes = 1 then m ++ " 1 error"
      else m ++ " " ++ toString len_error_xml_nodes ++ " errors"
    else error_msg
  let error_msg :=
    if len_unparsable_files > 0 then
      let m := if error_msg = "" then error_msg ++ " Found" else error_msg ++ ","
      if len_unparsable_files = 1 then m ++ " 1 unparsable file"
      else m ++ " " ++ toString len_unparsable_files ++ " unparsable files."
    else error_msg
  if error_msg ≠ "!!!" then (Severity.error, error_msg)
  else (Severity.info, "No memcheck errors or parsing issues encountered.")

/-! ## The whole run (`main`) -/

/-- Result of one `main(source_dir, output_file)` invocation: the final scan
state, the emitted summary, and the child list of the output document's
root element as written by `output_file_template.writexml(...)`. -/
structure RunResult where
  scan : ScanState
  summary : Severity × String
  outputChildren : List XNode
deriving DecidableEq

/-- The forest of root-level children of all documents parsed during the
scan: exactly the files of nonzero size whose parse succeeded (zero-size
files are never parsed, `ExpatError` files yield no document). -/
def parsedForest (files : List InputFile) : List XNode :=
  (files.filterMap (fun f => if f.size ≠ 0 then f.parsed else none)).flatten

/-- `main(source_dir, output_file)`: scan, report, merge into the template,
serialize.  (Qualified name: a bare `main` must have an `IO` type in Lean.) -/
def memcheck_merge.main (files : List InputFile) : RunResult :=
  let st := scanFiles files
  let summary := print_results st.errorNodes.length st.unparsableFiles.length
  let outC := mergeErrors st.errorNodes (parsedForest files)
  ⟨st, summary, outC⟩

/-! ## Serialization (`writexml`) -/

/-- minidom's `_write_data`: escape `&`, `<`, `"`, `>` (in that order). -/
def xmlEscape (s : String) : String :=
  (((s.replace "&" "&amp;").replace "<" "&lt;").replace "\x22" "&quot;").replace ">" "&gt;"

/-- Attribute rendering of `Element.writexml`. -/
def serAttrs : List (String × String) → String
  | [] => ""
  | (n, v) :: r => " " ++ n ++ "=\x22" ++ xmlEscape v ++ "\x22" ++ serAttrs r

/-- `node.writexml(writer, indent='', addindent='', newl='')` over a forest:
elements with no children are written `<tag/>`, others
`<tag>…children…</tag>`; text nodes are escaped. -/
def serF : List XNode → String
  | [] => ""
  | .elem _ t a c :: r =>
      (if c.isEmpty then "<" ++ t ++ serAttrs a ++ "/>"
       else "<" ++ t ++ serAttrs a ++ ">" ++ serF c ++ "</" ++ t ++ ">") ++ serF r
  | .text s :: r => xmlEscape s ++ serF r

/-- Serialization of a single node. -/
def serN (n : XNode) : String := serF [n]

/-- `Document.writexml(handle)`: the XML declaration (minidom always writes
`<?xml version="1.0" ?>`) followed by the document children; for this
program the single root element with the given child list. -/
def serDoc (rootChildren : List XNode) : String :=
  "<?xml version=\x221.0\x22 ?>" ++ serF [XNode.elem 1 "valgrindoutput" [] rootChildren]

/-! ## Characterization helpers (proof artifacts, not transcriptions)

`stripF` removes every `error` element (with its whole subtree) from a
forest; `stripTop` removes every `error` descendant from the strict
interior of a node.  They describe the net effect of the identity-moving
merge: an `error` record nested inside another collected record is
detached from it when its own turn to be inserted comes. -/

def stripF : List XNode → List XNode
  | [] => []
  | .elem i t a c :: r => if t = "error" then stripF r else .elem i t a (stripF c) :: stripF r
  | .text s :: r => .text s :: stripF r

def stripTop : XNode → XNode
  | .elem i t a c => .elem i t a (stripF c)
  | .text s => .text s

/-- Relabelling of element identities, used to state idempotence: re-parsing
the serialized output yields the same tree up to fresh node identities. -/
def relabelF (σ : Nat → Nat) : List XNode → List XNode
  | [] => []
  | .elem i t a c :: r => .elem (σ i) t a (relabelF σ c) :: relabelF σ r
  | .text s :: r => .text s :: relabelF σ r

/-- Size measure for induction over forests. -/
def sizeF : List XNode → Nat
  | [] => 0
  | .elem _ _ _ c :: r => 1 + sizeF c + sizeF r
  | .text _ :: r => 1 + sizeF r

/-- Shorthand for the collected-error traversal. -/
def errsF (F : List XNode) : List XNode := getElementsByTagName F "error"

/-! ## One-hole contexts

During the merge loop the nodes still to be moved live either in the source
forest or inside an already-moved record sitting in front of the
placeholder.  A one-hole context describes such a position: a forest
position nested under a chain of element constructors. -/

inductive FCtx : Type where
  | fhole (pre : List XNode)
  | fnode (pre : List XNode) (i : Nat) (tg : String) (a : List (String × String))
      (inner : FCtx) (suf : List XNode)

/-- Plug a forest into the hole of a context. -/
def plug : FCtx → List XNode → List XNode
  | .fhole pre, F => pre ++ F
  | .fnode pre i tg a K suf, F => pre ++ XNode.elem i tg a (plug K F) :: suf

/-- The element pairs contributed by the context itself. -/
def ctxPairs : FCtx → List (Nat × String)
  | .fhole pre => pairsF pre
  | .fnode pre i tg a K suf => pairsF pre ++ (i, tg) :: (ctxPairs K ++ pairsF suf)

/-- The element ids contributed by the context itself. -/
def ctxIds (K : FCtx) : List Nat := (ctxPairs K).map Prod.fst

/-- Extend the innermost prefix of a context by one node. -/
def pushPre : FCtx → XNode → FCtx
  | .fhole pre, n => .fhole (pre ++ [n])
  | .fnode pre i tg a K suf, n => .fnode pre i tg a (pushPre K n) suf

/-- Narrow the hole of a context to the children of a fresh element. -/
def extendCtx : FCtx → Nat → String → List (String × String) → List XNode → FCtx
  | .fhole pre, j, tg, a, suf => .fnode pre j tg a (.fhole []) suf
  | .fnode pre i t a' K s', j, tg, a, suf => .fnode pre i t a' (extendCtx K j tg a suf) s'

/-- Single-forest view of one loop iteration: the source forest and the
output's child list are concatenated into one forest `W` (sources first,
output last), `detachF` then finds the live node wherever it sits, and the
insertion happens before the placeholder, which only ever occurs in the
output part.  `mergeLoop` is proved to simulate folds of `stepW`. -/
def stepW (W : List XNode) (j : Nat) : List XNode :=
  match detachF j W with
  | (some x, W') => insertBeforeTop phId x W'
  | (none, _) => W

/-- The children of a node (`[]` for text nodes). -/
def getChildren : XNode → List XNode
  | .elem _ _ _ c => c
  | .text _ => []

/-- No `error` element of the forest contains another `error` element. -/
def noNestedErrors (F : List XNode) : Prop :=
  ∀ n ∈ errsF F, errsF (getChildren n) = []

/-! ## Relabelling (fresh identities when a document is re-parsed) -/

/-- Relabelling of a single node. -/
def relabelN (σ : Nat → Nat) : XNode → XNode
  | .elem i t a c => .elem (σ i) t a (relabelF σ c)
  | .text s => .text s

/-! ## Scanner lemmas -/

/-- Paths of files of nonzero size whose parse fails, in scan order. -/
def unparsable_of (files : List InputFile) : List String :=
  files.filterMap (fun f =>
    if f.size ≠ 0 then
      match f.parsed with
      | none => some f.path
      | some _ => none
    else none)

/-- Recognizer for the dead `OK` diagnostic. -/
def isOkPass : LogEntry → Bool
  | .okPass _ => true
  | _ => false

/-! ## Per-file views and serialization constants -/

/-- The error records a file contributes to the collection: none when the
file has zero size or fails to parse, else its `error` elements in document
order. -/
def collectedOf (f : InputFile) : List XNode :=
  if f.size ≠ 0 then
    match f.parsed with
    | some d => getElementsByTagName d "error"
    | none => []
  else []

/-- The serialized output before the error region: declaration, root open
tag, and the scaffold before the placeholder. -/
def serPRE : String := "<?xml version=\x221.0\x22 ?>" ++ ("<valgrindoutput>" ++ serF tB)

/-- The serialized output after the error region: the scaffold after the
placeholder and the root close tag. -/
def serPOST : String := serF tA ++ "</valgrindoutput>"

/-- Substring containment, used to state that the summary names a count. -/
def strContains (hay pat : String) : Prop := ∃ s t, hay = s ++ (pat ++ t)

/-- A well-formed input whose outer `error` record contains a nested
`error` record. -/
def nestedFile : InputFile :=
  ⟨"nested.xml", 1, some [XNode.elem 100 "error" [] [XNode.elem 101 "error" [] []]]⟩

/-- A concrete report document with two `error` records at depth one. -/
def wdoc : List XNode :=
  [XNode.elem 100 "valgrindoutput" []
    [XNode.elem 101 "error" [] [], XNode.elem 102 "error" [] []]]

/-- A concrete parsable input file of nonzero size. -/
def wfile1 : InputFile := ⟨"r1.xml", 10, some wdoc⟩

/-- A concrete zero-size input file. -/
def wfileEmpty : InputFile := ⟨"empty.xml", 0, none⟩

/-- A concrete malformed (unparsable) input file of nonzero size. -/
def wfileBad : InputFile := ⟨"bad.xml", 7, none⟩

/-- The first run's output, re-parsed with fresh node identities. -/
def wgout : InputFile :=
  ⟨"output.xml", 5,
    some (relabelF (fun n => n + 1000) (memcheck_merge.main [wfile1]).outputChildren)⟩

/-! ## Basic lemmas -/

/-- Induction principle for forests, recursing into children and siblings. -/
theorem forest_induction (P : List XNode → Prop) (h1 : P [])
    (h2 : ∀ i t a c r, P c → P r → P (XNode.elem i t a c :: r))
    (h3 : ∀ s r, P r → P (XNode.text s :: r)) : ∀ F, P F := by
  have key : ∀ n F, sizeF F ≤ n → P F := by
    intro n
    induction n with
    | zero =>
      intro F hF
      match F with
      | [] => exact h1
      | .elem i t a c :: r => simp [sizeF] at hF
      | .text s :: r => simp [sizeF] at hF
    | succ n ih =>
      intro F hF
      match F with
      | [] => exact h1
      | .elem i t a c :: r =>
        simp only [sizeF] at hF
        exact h2 i t a c r (ih c (by omega)) (ih r (by omega))
      | .text s :: r =>
        simp only [sizeF] at hF
        exact h3 s r (ih r (by omega))
  exact fun F => key (sizeF F) F le_rfl

theorem getElementsByTagName_append (A B : List XNode) (nm : String) :
    getElementsByTagName (A ++ B) nm =
      getElementsByTagName A nm ++ getElementsByTagName B nm := by
  induction A using forest_induction with
  | h1 => simp [getElementsByTagName]
  | h2 i t a c r ihc ihr => simp [getElementsByTagName, ihr]
  | h3 s r ihr => simp [getElementsByTagName, ihr]

theorem errsF_append (A B : List XNode) : errsF (A ++ B) = errsF A ++ errsF B :=
  getElementsByTagName_append A B "error"

theorem pairsF_append (A B : List XNode) : pairsF (A ++ B) = pairsF A ++ pairsF B := by
  induction A using forest_induction with
  | h1 => simp [pairsF]
  | h2 i t a c r ihc ihr => simp [pairsF, ihr]
  | h3 s r ihr => simp [pairsF, ihr]

theorem idsF_append (A B : List XNode) : idsF (A ++ B) = idsF A ++ idsF B := by
  simp [idsF, pairsF_append]

/-- `getElementsByTagName` filters the preorder traversal of the document:
it reaches elements at any depth, in document order. -/
theorem getElementsByTagName_eq_filter (F : List XNode) (nm : String) :
    getElementsByTagName F nm = (preorderElems F).filter (fun n => getTag n == nm) := by
  induction F using forest_induction with
  | h1 => simp [getElementsByTagName, preorderElems]
  | h2 i t a c r ihc ihr =>
    by_cases h : t = nm <;>
      simp [getElementsByTagName, preorderElems, ihc, ihr, getTag, h]
  | h3 s r ihr => simp [getElementsByTagName, preorderElems, ihr, getTag]

/-- Every collected error node is an `error` element whose (id, tag) pair
occurs among the document's element pairs. -/
theorem errsF_mem (F : List XNode) :
    ∀ n ∈ errsF F, ∃ i a c, n = XNode.elem i "error" a c ∧ (i, "error") ∈ pairsF F := by
  induction F using forest_induction with
  | h1 => simp [errsF, getElementsByTagName]
  | h2 i t a c r ihc ihr =>
    intro n hn
    simp [errsF, getElementsByTagName] at hn
    rcases hn with ⟨ht, hEq⟩ | h | h
    · subst ht
      exact ⟨i, a, c, hEq, by simp [pairsF]⟩
    · rcases ihc n (by simpa [errsF] using h) with ⟨i', a', c', hEq, hMem⟩
      exact ⟨i', a', c', hEq, by simp [pairsF, hMem]⟩
    · rcases ihr n (by simpa [errsF] using h) with ⟨i', a', c', hEq, hMem⟩
      exact ⟨i', a', c', hEq, by simp [pairsF, hMem]⟩
  | h3 s r ihr =>
    intro n hn
    simp only [errsF, getElementsByTagName] at hn
    rcases ihr n hn with ⟨i', a', c', hEq, hMem⟩
    exact ⟨i', a', c', hEq, by simp [pairsF, hMem]⟩

/-- Ids of collected error nodes are ids of the document. -/
theorem errsF_ids_sub (F : List XNode) : ∀ n ∈ errsF F, getId n ∈ idsF F := by
  intro n hn
  rcases errsF_mem F n hn with ⟨i, a, c, hEq, hMem⟩
  subst hEq
  simp only [getId, idsF]
  exact List.mem_map.2 ⟨(i, "error"), hMem, rfl⟩

/-- Conversely, every `error` pair of the document comes from a collected
error node. -/
theorem pairs_error_mem_errsF (F : List XNode) :
    ∀ i, (i, "error") ∈ pairsF F → ∃ n ∈ errsF F, getId n = i := by
  induction F using forest_induction with
  | h1 => simp [pairsF]
  | h2 j t a c r ihc ihr =>
    intro i hi
    simp only [pairsF, List.mem_cons, List.mem_append] at hi
    rcases hi with h | h | h
    · rw [Prod.mk.injEq] at h
      obtain ⟨h1, h2⟩ := h
      refine ⟨XNode.elem j t a c, ?_, by simp [getId, h1]⟩
      simp [errsF, getElementsByTagName, ← h2]
    · rcases ihc i h with ⟨n, hn, hid⟩
      refine ⟨n, ?_, hid⟩
      simp only [errsF, getElementsByTagName]
      refine List.mem_append.2 (Or.inl (List.mem_append.2 (Or.inr ?_)))
      simpa [errsF] using hn
    · rcases ihr i h with ⟨n, hn, hid⟩
      refine ⟨n, ?_, hid⟩
      simp only [errsF, getElementsByTagName]
      exact List.mem_append.2 (Or.inr (by simpa [errsF] using hn))
  | h3 s r ihr =>
    intro i hi
    simp only [pairsF] at hi
    rcases ihr i hi with ⟨n, hn, hid⟩
    exact ⟨n, by simpa [errsF, getElementsByTagName] using hn, hid⟩

theorem idsF_nil : idsF [] = [] := by simp [idsF, pairsF]

theorem idsF_cons_elem (i : Nat) (t : String) (a : List (String × String))
    (c r : List XNode) :
    idsF (XNode.elem i t a c :: r) = i :: (idsF c ++ idsF r) := by
  simp [idsF, pairsF]

theorem idsF_cons_text (s : String) (r : List XNode) :
    idsF (XNode.text s :: r) = idsF r := by
  simp [idsF, pairsF]

/-! ## Lemmas about `detachF` -/

theorem detachF_not_mem (j : Nat) : ∀ F, j ∉ idsF F → detachF j F = (none, F) := by
  intro F
  induction F using forest_induction with
  | h1 => intro _; simp [detachF]
  | h2 i t a c r ihc ihr =>
    intro h
    rw [idsF_cons_elem] at h
    simp only [List.mem_cons, List.mem_append, not_or] at h
    obtain ⟨h1, h2, h3⟩ := h
    have hij : ¬ i = j := fun hh => h1 (hh ▸ rfl)
    simp [detachF, hij, ihc h2, ihr h3]
  | h3 s r ihr =>
    intro h
    rw [idsF_cons_text] at h
    simp [detachF, ihr h]

/-- Detaching a present id yields the element with that id, and the document's
(id, tag) pairs are exactly redistributed between the detached subtree and
the remaining forest. -/
theorem detachF_found (j : Nat) : ∀ F, j ∈ idsF F →
    ∃ tg a c F', detachF j F = (some (XNode.elem j tg a c), F') ∧
      List.Perm (pairsF F) ((j, tg) :: (pairsF c ++ pairsF F')) := by
  intro F
  induction F using forest_induction with
  | h1 => simp [idsF_nil]
  | h2 i t a c r ihc ihr =>
    intro h
    rw [idsF_cons_elem] at h
    by_cases hij : i = j
    · subst hij
      refine ⟨t, a, c, r, by simp [detachF], ?_⟩
      simp [pairsF]
    · have hij' : ¬ i = j := hij
      simp only [List.mem_cons, List.mem_append] at h
      by_cases hc : j ∈ idsF c
      · rcases ihc hc with ⟨tg, a', c₂, c', hEq, hPerm⟩
        refine ⟨tg, a', c₂, XNode.elem i t a c' :: r, by simp [detachF, hij', hEq], ?_⟩
        rw [List.perm_iff_count] at *
        intro x
        have hx := hPerm x
        simp [pairsF, List.count_append, List.count_cons] at *
        omega
      · have hr : j ∈ idsF r := by
          rcases h with h | h | h
          · exact absurd h.symm hij
          · exact absurd h hc
          · exact h
        rcases ihr hr with ⟨tg, a', c₂, r', hEq, hPerm⟩
        refine ⟨tg, a', c₂, XNode.elem i t a c :: r',
          by simp [detachF, hij', detachF_not_mem j c hc, hEq], ?_⟩
        rw [List.perm_iff_count] at *
        intro x
        have hx := hPerm x
        simp [pairsF, List.count_append, List.count_cons] at *
        omega
  | h3 s r ihr =>
    intro h
    rw [idsF_cons_text] at h
    rcases ihr h with ⟨tg, a, c, F', hEq, hPerm⟩
    refine ⟨tg, a, c, XNode.text s :: F', by simp [detachF, hEq], ?_⟩
    rw [List.perm_iff_count] at *
    intro x
    have hx := hPerm x
    simp [pairsF, List.count_append, List.count_cons] at *
    omega

/-- Detaching can only remove element pairs; the remainder's pairs form a
sublist of the original pairs (so ids stay unique, and absent ids stay
absent). -/
theorem detachF_snd_pairs_sublist (j : Nat) :
    ∀ F, List.Sublist (pairsF (detachF j F).2) (pairsF F) := by
  intro F
  induction F using forest_induction with
  | h1 => simp [detachF]
  | h2 i t a c r ihc ihr =>
    by_cases hij : i = j
    · subst hij
      simp only [detachF, if_pos rfl, pairsF]
      exact (List.sublist_append_right _ _).cons _
    · rcases hc : detachF j c with ⟨xc, c'⟩
      cases xc with
      | some x =>
        simp only [detachF, if_neg hij, hc, pairsF]
        refine List.Sublist.cons₂ _ (List.Sublist.append ?_ (List.Sublist.refl _))
        simpa [hc] using ihc
      | none =>
        rcases hr : detachF j r with ⟨xr, r'⟩
        simp only [detachF, if_neg hij, hc, hr, pairsF]
        refine List.Sublist.cons₂ _ (List.Sublist.append (List.Sublist.refl _) ?_)
        simpa [hr] using ihr
  | h3 s r ihr =>
    rcases hr : detachF j r with ⟨xr, r'⟩
    simp only [detachF, hr, pairsF]
    simpa [hr] using ihr

/-- Searching an append whose left part misses the id. -/
theorem detachF_append_not_mem (j : Nat) (A B : List XNode) (h : j ∉ idsF A) :
    detachF j (A ++ B) = ((detachF j B).1, A ++ (detachF j B).2) := by
  induction A using forest_induction with
  | h1 => simp
  | h2 i t a c r ihr' ihr =>
    rw [idsF_cons_elem] at h
    simp only [List.mem_cons, List.mem_append, not_or] at h
    obtain ⟨h1, h2, h3⟩ := h
    have hij : ¬ i = j := fun hh => h1 (hh ▸ rfl)
    simp only [List.cons_append]
    simp [detachF, hij, detachF_not_mem j c h2, ihr h3]
  | h3 s r ihr =>
    rw [idsF_cons_text] at h
    simp only [List.cons_append]
    simp [detachF, ihr h]

/-- Searching an append that hits in the left part. -/
theorem detachF_append_found (j : Nat) (A B : List XNode) (x : XNode)
    (h : (detachF j A).1 = some x) :
    detachF j (A ++ B) = (some x, (detachF j A).2 ++ B) := by
  induction A using forest_induction with
  | h1 => simp [detachF] at h
  | h2 i t a c r ihc ihr =>
    by_cases hij : i = j
    · subst hij
      simp only [detachF, if_pos rfl] at h ⊢
      simp only [List.cons_append]
      simp only [detachF, if_pos rfl]
      simp at h
      simp [h]
    · rcases hc : detachF j c with ⟨xc, c'⟩
      cases xc with
      | some y =>
        simp only [detachF, if_neg hij, hc] at h ⊢
        simp only [List.cons_append]
        simp only [detachF, if_neg hij, hc]
        simp at h ⊢
        simp [h]
      | none =>
        rcases hr : detachF j r with ⟨xr, r'⟩
        simp only [detachF, if_neg hij, hc, hr] at h ⊢
        simp only [List.cons_append]
        have := ihr (by simp [hr, h])
        simp only [detachF, if_neg hij, hc, this]
        simp [hr]
  | h3 s r ihr =>
    rcases hr : detachF j r with ⟨xr, r'⟩
    simp only [detachF, hr] at h ⊢
    simp only [List.cons_append]
    have := ihr (by simp [hr, h])
    simp only [detachF, this]
    simp [hr]

/-! ## Lemmas about `insertBeforeTop` and `removeChildTop` -/

theorem insertBeforeTop_append_not (ref : Nat) (x : XNode) (A B : List XNode)
    (h : ∀ n ∈ A, getId n ≠ ref) :
    insertBeforeTop ref x (A ++ B) = A ++ insertBeforeTop ref x B := by
  induction A with
  | nil => simp
  | cons m r ih =>
    have hm : getId m ≠ ref := h m (List.mem_cons_self m r)
    simp only [List.cons_append, insertBeforeTop, if_neg hm, List.append_eq]
    rw [ih (fun n hn => h n (List.mem_cons_of_mem m hn))]

theorem insertBeforeTop_marker (ref : Nat) (x m : XNode) (B : List XNode)
    (h : getId m = ref) :
    insertBeforeTop ref x (m :: B) = x :: m :: B := by
  simp [insertBeforeTop, h]

theorem removeChildTop_append_not (ref : Nat) (A B : List XNode)
    (h : ∀ n ∈ A, getId n ≠ ref) :
    removeChildTop ref (A ++ B) = A ++ removeChildTop ref B := by
  induction A with
  | nil => simp
  | cons m r ih =>
    have hm : getId m ≠ ref := h m (List.mem_cons_self m r)
    simp only [List.cons_append, removeChildTop, if_neg hm, List.append_eq]
    rw [ih (fun n hn => h n (List.mem_cons_of_mem m hn))]

theorem removeChildTop_marker (ref : Nat) (m : XNode) (B : List XNode)
    (h : getId m = ref) :
    removeChildTop ref (m :: B) = B := by
  simp [removeChildTop, h]

/-- A top-level node whose `getId` equals a given element id has that id in
the forest's ids, unless it is a text node (whose `getId` is `0`). -/
theorem getId_mem_idsF (F : List XNode) (n : XNode) (h : n ∈ F) (h0 : getId n ≠ 0) :
    getId n ∈ idsF F := by
  induction F with
  | nil => simp at h
  | cons m r ih =>
    rcases List.mem_cons.1 h with hEq | hMem
    · subst hEq
      cases n with
      | elem i t a c => rw [idsF_cons_elem]; simp [getId]
      | text s => simp [getId] at h0
    · cases m with
      | elem i t a c => rw [idsF_cons_elem]; simp [ih hMem]
      | text s => rw [idsF_cons_text]; exact ih hMem

theorem not_top_marker (A : List XNode) (ref : Nat) (h : ref ∉ idsF A) (h0 : ref ≠ 0) :
    ∀ n ∈ A, getId n ≠ ref := by
  intro n hn hEq
  by_cases hz : getId n = 0
  · exact h0 (hEq ▸ hz)
  · exact h (hEq ▸ getId_mem_idsF A n hn hz)

theorem errsF_nil : errsF [] = [] := by simp [errsF, getElementsByTagName]

theorem errsF_cons_elem (i : Nat) (t : String) (a : List (String × String))
    (c r : List XNode) :
    errsF (XNode.elem i t a c :: r) =
      (if t = "error" then [XNode.elem i t a c] else []) ++ errsF c ++ errsF r := by
  simp [errsF, getElementsByTagName]

theorem errsF_cons_text (s : String) (r : List XNode) :
    errsF (XNode.text s :: r) = errsF r := by
  simp [errsF, getElementsByTagName]

/-- The strip-and-extract decomposition redistributes the element pairs of a
forest: nothing is lost or duplicated when every `error` subtree is removed
and each collected `error` node keeps only its non-`error` interior. -/
theorem strip_pairs_perm : ∀ F : List XNode,
    List.Perm (pairsF (stripF F) ++ pairsF (List.map stripTop (errsF F))) (pairsF F) := by
  intro F
  induction F using forest_induction with
  | h1 => simp [stripF, errsF_nil, pairsF]
  | h2 i t a c r ihc ihr =>
    by_cases ht : t = "error"
    · subst ht
      rw [List.perm_iff_count] at *
      intro x
      have hc := ihc x
      have hr := ihr x
      simp [stripF, errsF_cons_elem, pairsF, pairsF_append, stripTop,
        List.count_append, List.count_cons] at *
      omega
    · rw [List.perm_iff_count] at *
      intro x
      have hc := ihc x
      have hr := ihr x
      simp [stripF, ht, errsF_cons_elem, pairsF, pairsF_append, stripTop,
        List.count_append, List.count_cons] at *
      omega
  | h3 s r ihr =>
    rw [List.perm_iff_count] at *
    intro x
    have hr := ihr x
    simp [stripF, errsF_cons_text, pairsF, pairsF_append,
      List.count_append, List.count_cons] at *
    omega

theorem plug_pushPre (K : FCtx) (n : XNode) (F : List XNode) :
    plug (pushPre K n) F = plug K (n :: F) := by
  induction K with
  | fhole pre => simp [plug, pushPre]
  | fnode pre i tg a Ki suf ih => simp [plug, pushPre, ih]

theorem plug_extendCtx (K : FCtx) (j : Nat) (tg : String) (a : List (String × String))
    (suf F : List XNode) :
    plug (extendCtx K j tg a suf) F = plug K (XNode.elem j tg a F :: suf) := by
  induction K with
  | fhole pre => simp [plug, extendCtx]
  | fnode pre i t a' Ki s' ih => simp [plug, extendCtx, ih]

theorem ctxPairs_pushPre (K : FCtx) (n : XNode) :
    List.Perm (ctxPairs (pushPre K n)) (ctxPairs K ++ pairsF [n]) := by
  induction K with
  | fhole pre => simp [ctxPairs, pushPre, pairsF_append]
  | fnode pre i tg a Ki suf ih =>
    rw [List.perm_iff_count] at *
    intro x
    have hi := ih x
    simp [ctxPairs, pushPre, List.count_append, List.count_cons] at *
    omega

theorem ctxPairs_extendCtx (K : FCtx) (j : Nat) (tg : String)
    (a : List (String × String)) (suf : List XNode) :
    List.Perm (ctxPairs (extendCtx K j tg a suf))
      ((j, tg) :: (ctxPairs K ++ pairsF suf)) := by
  induction K with
  | fhole pre => simp [ctxPairs, extendCtx, pairsF]
  | fnode pre i t a' Ki s' ih =>
    rw [List.perm_iff_count] at *
    intro x
    have hi := ih x
    simp [ctxPairs, extendCtx, List.count_append, List.count_cons] at *
    omega

/-- The element pairs of a plugged context split (up to order) into the
context's pairs and the plugged forest's pairs. -/
theorem plug_pairs (K : FCtx) (F : List XNode) :
    List.Perm (pairsF (plug K F)) (ctxPairs K ++ pairsF F) := by
  induction K with
  | fhole pre => simp [plug, ctxPairs, pairsF_append]
  | fnode pre i tg a Ki suf ih =>
    rw [List.perm_iff_count] at *
    intro x
    have hi := ih x
    simp [plug, ctxPairs, pairsF, pairsF_append, List.count_append, List.count_cons] at *
    omega

/-- Detaching an element that sits exactly at the hole of a context. -/
theorem detach_plug (j : Nat) (tg : String) (a : List (String × String))
    (c r : List XNode) :
    ∀ K : FCtx, j ∉ ctxIds K →
      detachF j (plug K (XNode.elem j tg a c :: r)) =
        (some (XNode.elem j tg a c), plug K r) := by
  intro K
  induction K with
  | fhole pre =>
    intro hj
    have hpre : j ∉ idsF pre := by simpa [ctxIds, ctxPairs, idsF] using hj
    rw [plug, plug, detachF_append_not_mem j pre _ hpre]
    simp [detachF]
  | fnode pre i t a' Ki suf ih =>
    intro hj
    simp only [ctxIds, ctxPairs, List.map_append, List.map_cons, List.mem_append,
      List.mem_cons, not_or] at hj
    obtain ⟨h1, h2, h3⟩ := hj
    have hpre : j ∉ idsF pre := by simpa [idsF] using h1
    have hij : ¬ i = j := fun hh => h2 (hh ▸ rfl)
    have hKi : j ∉ ctxIds Ki := by
      intro hmem
      exact h3.1 (by simpa [ctxIds] using hmem)
    show detachF j (pre ++ XNode.elem i t a' (plug Ki (XNode.elem j tg a c :: r)) :: suf) =
      (some (XNode.elem j tg a c), pre ++ XNode.elem i t a' (plug Ki r) :: suf)
    rw [detachF_append_not_mem j pre _ hpre]
    simp [detachF, hij, ih hKi]

theorem errsF_cons_error (i : Nat) (a : List (String × String)) (c r : List XNode) :
    errsF (XNode.elem i "error" a c :: r) =
      XNode.elem i "error" a c :: (errsF c ++ errsF r) := by
  simp [errsF_cons_elem]

theorem stripF_cons_error (i : Nat) (a : List (String × String)) (c r : List XNode) :
    stripF (XNode.elem i "error" a c :: r) = stripF r := by
  simp [stripF]

theorem stripF_cons_elem_ne (i : Nat) (t : String) (a : List (String × String))
    (c r : List XNode) (h : t ≠ "error") :
    stripF (XNode.elem i t a c :: r) = XNode.elem i t a (stripF c) :: stripF r := by
  simp [stripF, h]

theorem stripF_cons_text (s : String) (r : List XNode) :
    stripF (XNode.text s :: r) = XNode.text s :: stripF r := by
  simp [stripF]

theorem stripTop_elem (i : Nat) (t : String) (a : List (String × String))
    (c : List XNode) :
    stripTop (XNode.elem i t a c) = XNode.elem i t a (stripF c) := by
  simp [stripTop]

theorem phId_ne_zero : phId ≠ 0 := by simp [phId]

theorem getId_phNode : getId phNode = phId := rfl

set_option maxHeartbeats 1000000 in
/-- The heart of the merge analysis.  If the forest `F` sits at the hole of
a context `K`, in front of extra material `D` and the placeholder, and all
element ids in sight are distinct and distinct from the placeholder's, then
moving all of `F`'s `error` elements (in document order) in front of the
placeholder strips every `error` subtree out of `F` in place and lines the
collected records up before the placeholder in collected order — each record
keeping exactly its non-`error` interior. -/
theorem moveAll_plug : ∀ n F (K : FCtx) (D B : List XNode), sizeF F ≤ n →
    ((ctxPairs K ++ pairsF F ++ pairsF D ++ pairsF B).map Prod.fst).Nodup →
    phId ∉ ((ctxPairs K ++ pairsF F ++ pairsF D ++ pairsF B).map Prod.fst) →
    List.foldl stepW (plug K F ++ (D ++ phNode :: B)) (List.map getId (errsF F)) =
      plug K (stripF F) ++ (D ++ (List.map stripTop (errsF F) ++ phNode :: B)) := by
  intro n
  induction n with
  | zero =>
    intro F K D B hsz hnd hph
    match F with
    | [] => simp [errsF_nil, stripF]
    | .elem i t a c :: r => simp only [sizeF] at hsz; omega
    | .text s :: r => simp only [sizeF] at hsz; omega
  | succ n ih =>
    intro F K D B hsz hnd hph
    match F with
    | [] => simp [errsF_nil, stripF]
    | .text s :: r =>
      have hsr : sizeF r ≤ n := by simp only [sizeF] at hsz; omega
      have hperm : List.Perm
          (ctxPairs (pushPre K (XNode.text s)) ++ pairsF r ++ pairsF D ++ pairsF B)
          (ctxPairs K ++ pairsF (XNode.text s :: r) ++ pairsF D ++ pairsF B) := by
        rw [List.perm_iff_count]
        intro x
        have h₁ := (ctxPairs_pushPre K (XNode.text s)).count_eq x
        simp [pairsF, List.count_append] at *
        omega
      have hnd' := ((hperm.map Prod.fst).nodup_iff).mpr hnd
      have hph' : phId ∉ ((ctxPairs (pushPre K (XNode.text s)) ++ pairsF r ++ pairsF D ++
          pairsF B).map Prod.fst) := fun hm => hph ((hperm.map Prod.fst).mem_iff.mp hm)
      rw [errsF_cons_text, ← plug_pushPre K (XNode.text s) r,
        ih r (pushPre K (XNode.text s)) D B hsr hnd' hph', plug_pushPre]
      simp [stripF]
    | .elem j tg a c :: r =>
      have hsc : sizeF c ≤ n := by simp only [sizeF] at hsz; omega
      have hsr : sizeF r ≤ n := by simp only [sizeF] at hsz; omega
      by_cases ht : tg = "error"
      · subst ht
        -- decompose the uniqueness hypothesis around the head element id `j`
        have hj0 : List.count j ((ctxPairs K).map Prod.fst) = 0 ∧
            List.count j ((pairsF c).map Prod.fst) = 0 ∧
            List.count j ((pairsF r).map Prod.fst) = 0 ∧
            List.count j ((pairsF D).map Prod.fst) = 0 ∧
            List.count j ((pairsF B).map Prod.fst) = 0 := by
          have hx := List.nodup_iff_count_le_one.1 hnd j
          simp [pairsF, List.count_append, List.count_cons, List.map_append] at hx
          refine ⟨?_, ?_, ?_, ?_, ?_⟩ <;> omega
        have hjK : j ∉ ctxIds K := by
          rw [ctxIds]
          exact List.count_eq_zero.1 hj0.1
        -- the placeholder id occurs nowhere among the live ids
        have hph5 : phId ∉ ((ctxPairs K).map Prod.fst) ∧
            phId ∉ ((pairsF c).map Prod.fst) ∧ phId ∉ ((pairsF r).map Prod.fst) ∧
            phId ∉ ((pairsF D).map Prod.fst) ∧ phId ∉ ((pairsF B).map Prod.fst) := by
          simp only [List.map_append, List.mem_append, not_or] at hph
          obtain ⟨⟨⟨hA, hB⟩, hC⟩, hD⟩ := hph
          simp only [pairsF, List.map_cons, List.map_append, List.mem_cons,
            List.mem_append, not_or] at hB
          exact ⟨hA, hB.2.1, hB.2.2, hC, hD⟩
        -- step 1: detach the head error record and insert it before the ph
        have hfound := detach_plug j "error" a c r K hjK
        have hnotop : ∀ m ∈ plug K r ++ D, getId m ≠ phId := by
          apply not_top_marker _ _ _ phId_ne_zero
          rw [idsF_append]
          simp only [List.mem_append, not_or]
          constructor
          · intro hm
            have := ((plug_pairs K r).map Prod.fst).mem_iff.mp (by simpa [idsF] using hm)
            simp only [List.map_append, List.mem_append] at this
            rcases this with h | h
            · exact hph5.1 h
            · exact hph5.2.2.1 h
          · exact fun hm => hph5.2.2.2.1 (by simpa [idsF] using hm)
        have hstep : stepW (plug K (XNode.elem j "error" a c :: r) ++ (D ++ phNode :: B)) j =
            plug K r ++ (D ++ XNode.elem j "error" a c :: phNode :: B) := by
          have happ := detachF_append_found j (plug K (XNode.elem j "error" a c :: r))
            (D ++ phNode :: B) (XNode.elem j "error" a c) (by rw [hfound])
          rw [hfound] at happ
          simp only [stepW, happ]
          rw [← List.append_assoc,
            insertBeforeTop_append_not phId _ (plug K r ++ D) (phNode :: B) hnotop,
            insertBeforeTop_marker phId _ phNode B getId_phNode]
          simp [List.append_assoc]
        -- reduce the fold over the head id
        rw [errsF_cons_error]
        simp only [List.map_cons, List.map_append, List.foldl_cons, List.foldl_append, getId]
        rw [hstep]
        -- phase c: process the errors nested inside the just-moved record
        have hplug3 : plug (FCtx.fnode (plug K r ++ D) j "error" a (FCtx.fhole []) []) c =
            plug K r ++ (D ++ [XNode.elem j "error" a c]) := by
          simp [plug]
        have hperm3 : List.Perm
            (ctxPairs (FCtx.fnode (plug K r ++ D) j "error" a (FCtx.fhole []) []) ++
              pairsF c ++ pairsF ([] : List XNode) ++ pairsF B)
            (ctxPairs K ++ pairsF (XNode.elem j "error" a c :: r) ++ pairsF D ++ pairsF B) := by
          rw [List.perm_iff_count]
          intro x
          have h₁ := (plug_pairs K r).count_eq x
          simp [ctxPairs, pairsF, pairsF_append, List.count_append, List.count_cons] at *
          omega
        have hnd3 := ((hperm3.map Prod.fst).nodup_iff).mpr hnd
        have hph3 : phId ∉ ((ctxPairs (FCtx.fnode (plug K r ++ D) j "error" a
            (FCtx.fhole []) []) ++ pairsF c ++ pairsF ([] : List XNode) ++
            pairsF B).map Prod.fst) := fun hm => hph ((hperm3.map Prod.fst).mem_iff.mp hm)
        have e₁ := ih c (FCtx.fnode (plug K r ++ D) j "error" a (FCtx.fhole []) []) [] B
          hsc hnd3 hph3
        rw [hplug3] at e₁
        simp only [List.nil_append] at e₁
        have hstate : plug K r ++ (D ++ XNode.elem j "error" a c :: phNode :: B) =
            plug K r ++ (D ++ [XNode.elem j "error" a c]) ++ (phNode :: B) := by
          simp [List.append_assoc]
        rw [hstate, e₁]
        -- phase r: process the remaining errors of the rest of the forest
        have hplug4 : plug (FCtx.fnode (plug K r ++ D) j "error" a (FCtx.fhole []) [])
            (stripF c) = plug K r ++ (D ++ [XNode.elem j "error" a (stripF c)]) := by
          simp [plug]
        rw [hplug4]
        have hperm5 : List.Perm
            (ctxPairs K ++ pairsF r ++
              pairsF (D ++ XNode.elem j "error" a (stripF c) ::
                List.map stripTop (errsF c)) ++ pairsF B)
            (ctxPairs K ++ pairsF (XNode.elem j "error" a c :: r) ++ pairsF D ++ pairsF B) := by
          rw [List.perm_iff_count]
          intro x
          have h₁ := (strip_pairs_perm c).count_eq x
          simp [pairsF, pairsF_append, List.count_append, List.count_cons] at *
          omega
        have hnd5 := ((hperm5.map Prod.fst).nodup_iff).mpr hnd
        have hph5' : phId ∉ ((ctxPairs K ++ pairsF r ++
            pairsF (D ++ XNode.elem j "error" a (stripF c) ::
              List.map stripTop (errsF c)) ++ pairsF B).map Prod.fst) :=
          fun hm => hph ((hperm5.map Prod.fst).mem_iff.mp hm)
        have e₂ := ih r K (D ++ XNode.elem j "error" a (stripF c) ::
          List.map stripTop (errsF c)) B hsr hnd5 hph5'
        have hstate2 : plug K r ++ (D ++ [XNode.elem j "error" a (stripF c)]) ++
            (List.map stripTop (errsF c) ++ phNode :: B) =
            plug K r ++ ((D ++ XNode.elem j "error" a (stripF c) ::
              List.map stripTop (errsF c)) ++ phNode :: B) := by
          simp [List.append_assoc]
        rw [hstate2, e₂, stripF_cons_error]
        simp only [stripTop_elem, List.map_cons, List.map_append, List.append_assoc,
          List.cons_append]
      · -- tg ≠ "error": recurse into the children, then into the siblings
        have hperm1 : List.Perm
            (ctxPairs (extendCtx K j tg a r) ++ pairsF c ++ pairsF D ++ pairsF B)
            (ctxPairs K ++ pairsF (XNode.elem j tg a c :: r) ++ pairsF D ++ pairsF B) := by
          rw [List.perm_iff_count]
          intro x
          have h₁ := (ctxPairs_extendCtx K j tg a r).count_eq x
          simp [pairsF, pairsF_append, List.count_append, List.count_cons] at *
          omega
        have hnd1 := ((hperm1.map Prod.fst).nodup_iff).mpr hnd
        have hph1 : phId ∉ ((ctxPairs (extendCtx K j tg a r) ++ pairsF c ++ pairsF D ++
            pairsF B).map Prod.fst) := fun hm => hph ((hperm1.map Prod.fst).mem_iff.mp hm)
        have herrs : errsF (XNode.elem j tg a c :: r) = errsF c ++ errsF r := by
          rw [errsF_cons_elem, if_neg ht]
          simp
        rw [herrs]
        simp only [List.map_append, List.foldl_append]
        rw [← plug_extendCtx K j tg a r c, ih c (extendCtx K j tg a r) D B hsc hnd1 hph1,
          plug_extendCtx]
        -- phase r
        rw [← plug_pushPre K (XNode.elem j tg a (stripF c)) r]
        have hperm2 : List.Perm
            (ctxPairs (pushPre K (XNode.elem j tg a (stripF c))) ++ pairsF r ++
              pairsF (D ++ List.map stripTop (errsF c)) ++ pairsF B)
            (ctxPairs K ++ pairsF (XNode.elem j tg a c :: r) ++ pairsF D ++ pairsF B) := by
          rw [List.perm_iff_count]
          intro x
          have h₁ := (ctxPairs_pushPre K (XNode.elem j tg a (stripF c))).count_eq x
          have h₂ := (strip_pairs_perm c).count_eq x
          simp [pairsF, pairsF_append, List.count_append, List.count_cons] at *
          omega
        have hnd2 := ((hperm2.map Prod.fst).nodup_iff).mpr hnd
        have hph2 : phId ∉ ((ctxPairs (pushPre K (XNode.elem j tg a (stripF c))) ++
            pairsF r ++ pairsF (D ++ List.map stripTop (errsF c)) ++
            pairsF B).map Prod.fst) := fun hm => hph ((hperm2.map Prod.fst).mem_iff.mp hm)
        have e₂ := ih r (pushPre K (XNode.elem j tg a (stripF c)))
          (D ++ List.map stripTop (errsF c)) B hsr hnd2 hph2
        have hstate : plug (pushPre K (XNode.elem j tg a (stripF c))) r ++
            (D ++ (List.map stripTop (errsF c) ++ phNode :: B)) =
            plug (pushPre K (XNode.elem j tg a (stripF c))) r ++
            ((D ++ List.map stripTop (errsF c)) ++ phNode :: B) := by
          simp [List.append_assoc]
        rw [hstate, e₂, plug_pushPre, stripF_cons_elem_ne j tg a c r ht]
        simp only [List.map_append, List.append_assoc]

/-! ## Concrete facts about the template -/

theorem tB_ids : idsF tB =
    [2, 3, 4, 5, 6, 7, 8, 9, 10, 11, 12, 13, 14, 15, 16, 17, 18, 19, 20, 21, 22,
      23, 24, 25, 26, 27, 28] := by
  simp [tB, tBrest, protoElem, idsF, pairsF]

theorem tA_ids : idsF tA = [29, 30, 31, 32, 33] := by
  simp [tA, idsF, pairsF]

theorem phId_not_tB : phId ∉ idsF tB := by rw [tB_ids, phId]; decide

theorem phId_not_tA : phId ∉ idsF tA := by rw [tA_ids, phId]; decide

theorem tB_errsF : errsF tB = [] := by
  simp [tB, tBrest, protoElem, errsF, getElementsByTagName]

theorem tA_errsF : errsF tA = [] := by
  simp [tA, errsF, getElementsByTagName]

/-! ## Simulation: the two-component merge loop versus the one-forest fold -/

theorem detachF_some_mem (j : Nat) (F : List XNode) (x : XNode) (F' : List XNode)
    (h : detachF j F = (some x, F')) : j ∈ idsF F := by
  by_contra hn
  rw [detachF_not_mem j F hn] at h
  simp at h

theorem detachF_some_spec (j : Nat) (F : List XNode) (x : XNode) (F' : List XNode)
    (h : detachF j F = (some x, F')) :
    ∃ tg a c, x = XNode.elem j tg a c ∧
      List.Perm (pairsF F) ((j, tg) :: (pairsF c ++ pairsF F')) := by
  rcases detachF_found j F (detachF_some_mem j F x F' h) with ⟨tg, a, c, F'', hEq, hPerm⟩
  rw [h] at hEq
  obtain ⟨h1, h2⟩ := Prod.mk.injEq .. ▸ hEq
  refine ⟨tg, a, c, Option.some.inj h1, ?_⟩
  rw [h2]
  exact hPerm

theorem detachF_fst_none (j : Nat) (F : List XNode) (F₁ : List XNode)
    (h : detachF j F = (none, F₁)) : j ∉ idsF F := by
  intro hmem
  rcases detachF_found j F hmem with ⟨tg, a, c, F', hEq, _⟩
  rw [h] at hEq
  simp at hEq

/-- `detachF_append_found` with the left result given as a pair. -/
theorem detachF_append_found2 (j : Nat) (A B : List XNode) (x : XNode) (A₁ : List XNode)
    (h : detachF j A = (some x, A₁)) :
    detachF j (A ++ B) = (some x, A₁ ++ B) := by
  have h1 : (detachF j A).1 = some x := by rw [h]
  have h2 : (detachF j A).2 = A₁ := by rw [h]
  rw [detachF_append_found j A B x h1, h2]

/-- If an id was not found, the forest is returned unchanged. -/
theorem detachF_none_eq (j : Nat) (F F₁ : List XNode) (h : detachF j F = (none, F₁)) :
    F₁ = F := by
  have h2 := detachF_not_mem j F (detachF_fst_none j F F₁ h)
  rw [h] at h2
  exact (Prod.mk.injEq .. ▸ h2).2

/-- Skipping an element whose subtree misses the searched id. -/
theorem detachF_cons_elem_none (j i : Nat) (t : String) (a : List (String × String))
    (c r : List XNode) (hij : ¬ i = j) (hc : j ∉ idsF c) :
    detachF j (XNode.elem i t a c :: r) =
      ((detachF j r).1, XNode.elem i t a c :: (detachF j r).2) := by
  simp [detachF, hij, detachF_not_mem j c hc]

/-- Inserting a node before the placeholder of the (partially filled)
template appends it to the filled region. -/
theorem insert_into_template (nd : XNode) (P : List XNode) (hP : phId ∉ idsF P) :
    insertBeforeTop phId nd (tB ++ (P ++ phNode :: tA)) =
      tB ++ ((P ++ [nd]) ++ phNode :: tA) := by
  have h1 : ∀ m ∈ tB ++ P, getId m ≠ phId := by
    apply not_top_marker _ _ _ phId_ne_zero
    rw [idsF_append]
    simp only [List.mem_append, not_or]
    exact ⟨phId_not_tB, hP⟩
  rw [← List.append_assoc tB P, insertBeforeTop_append_not phId nd (tB ++ P) _ h1,
    insertBeforeTop_marker phId nd phNode tA getId_phNode]
  simp [List.append_assoc]

/-- Detaching an id that is no template id from the (partially filled)
template reduces to detaching it from the filled region. -/
theorem detach_from_template (j : Nat) (P : List XNode) (hjtB : j ∉ idsF tB)
    (hjtA : j ∉ idsF tA) (hjph : j ≠ phId) (xP : Option XNode) (P₁ : List XNode)
    (hdP : detachF j P = (xP, P₁)) :
    detachF j (tB ++ (P ++ phNode :: tA)) = (xP, tB ++ (P₁ ++ phNode :: tA)) := by
  rw [detachF_append_not_mem j tB _ hjtB]
  cases xP with
  | some x =>
    rw [detachF_append_found2 j P (phNode :: tA) x P₁ hdP]
  | none =>
    have hjP : j ∉ idsF P := detachF_fst_none j P P₁ hdP
    rw [detachF_none_eq j P P₁ hdP, detachF_append_not_mem j P _ hjP]
    have hne : ¬ phId = j := fun h => hjph h.symm
    have hph : detachF j (phNode :: tA) = (none, phNode :: tA) := by
      rw [phNode, detachF_cons_elem_none j phId "error" [] [] tA hne (by rw [idsF_nil]; simp),
        detachF_not_mem j tA hjtA]
    rw [hph]

set_option maxHeartbeats 1000000 in
/-- The two-component merge loop (source forest, template child list) is
simulated by the one-forest fold `stepW`, and the template child list keeps
the shape `tB ++ filled ++ placeholder :: tA` throughout. -/
theorem mergeLoop_shape : ∀ (js : List Nat) (S P : List XNode),
    (∀ j ∈ js, j ∉ idsF tB ∧ j ∉ idsF tA ∧ j ≠ phId) →
    phId ∉ idsF S → phId ∉ idsF P →
    ∃ S' P', mergeLoop phId js ⟨S, tB ++ (P ++ phNode :: tA)⟩ =
        ⟨S', tB ++ (P' ++ phNode :: tA)⟩ ∧
      S' ++ (tB ++ (P' ++ phNode :: tA)) =
        List.foldl stepW (S ++ (tB ++ (P ++ phNode :: tA))) js ∧
      phId ∉ idsF S' ∧ phId ∉ idsF P' ∧ List.Sublist (pairsF S') (pairsF S) := by
  intro js
  induction js with
  | nil => exact fun S P _ hS hP => ⟨S, P, rfl, rfl, hS, hP, List.Sublist.refl _⟩
  | cons j rest ih =>
    intro S P hjs hS hP
    obtain ⟨hjtB, hjtA, hjph⟩ := hjs j (List.mem_cons_self j rest)
    have hrest := fun k hk => hjs k (List.mem_cons_of_mem j hk)
    rcases hdS : detachF j S with ⟨xS, S₁⟩
    cases xS with
    | some nd =>
      obtain ⟨tg, aa, cc, hnd_eq, hPermS⟩ := detachF_some_spec j S nd S₁ hdS
      have hS₁ : phId ∉ idsF S₁ := by
        intro hm
        apply hS
        have hmm : phId ∈ List.map Prod.fst ((j, tg) :: (pairsF cc ++ pairsF S₁)) := by
          simp only [List.map_cons, List.map_append, List.mem_cons, List.mem_append]
          exact Or.inr (Or.inr (by simpa [idsF] using hm))
        have := (hPermS.map Prod.fst).mem_iff.mpr hmm
        simpa [idsF] using this
      have hP₁ : phId ∉ idsF (P ++ [nd]) := by
        rw [idsF_append]
        simp only [List.mem_append, not_or]
        refine ⟨hP, ?_⟩
        subst hnd_eq
        rw [idsF_cons_elem, idsF_nil]
        simp only [List.append_nil, List.mem_cons, not_or]
        refine ⟨fun h => hjph h.symm, ?_⟩
        intro hm
        apply hS
        have hmm : phId ∈ List.map Prod.fst ((j, tg) :: (pairsF cc ++ pairsF S₁)) := by
          simp only [List.map_cons, List.map_append, List.mem_cons, List.mem_append]
          exact Or.inr (Or.inl (by simpa [idsF] using hm))
        have := (hPermS.map Prod.fst).mem_iff.mpr hmm
        simpa [idsF] using this
      have hpair : insertErrorNode phId ⟨S, tB ++ (P ++ phNode :: tA)⟩ j =
          ⟨S₁, tB ++ ((P ++ [nd]) ++ phNode :: tA)⟩ := by
        simp only [insertErrorNode, hdS]
        rw [insert_into_template nd P hP]
      have hdW : detachF j (S ++ (tB ++ (P ++ phNode :: tA))) =
          (some nd, S₁ ++ (tB ++ (P ++ phNode :: tA))) :=
        detachF_append_found2 j S _ nd S₁ hdS
      have hsingle : stepW (S ++ (tB ++ (P ++ phNode :: tA))) j =
          S₁ ++ (tB ++ ((P ++ [nd]) ++ phNode :: tA)) := by
        simp only [stepW, hdW]
        rw [insertBeforeTop_append_not phId nd S₁ _
          (not_top_marker S₁ phId hS₁ phId_ne_zero), insert_into_template nd P hP]
      rcases ih S₁ (P ++ [nd]) hrest hS₁ hP₁ with ⟨S', P', hml, hcat, hS', hP', hsub⟩
      have hsub1 : List.Sublist (pairsF S₁) (pairsF S) := by
        have hs := detachF_snd_pairs_sublist j S
        rw [hdS] at hs
        simpa using hs
      refine ⟨S', P', ?_, ?_, hS', hP', hsub.trans hsub1⟩
      · simp only [mergeLoop, List.foldl_cons] at hml ⊢
        rw [hpair]
        exact hml
      · rw [List.foldl_cons, hsingle]
        exact hcat
    | none =>
      have hjS : j ∉ idsF S := detachF_fst_none j S S₁ hdS
      rcases hdP : detachF j P with ⟨xP, P₁⟩
      have hOdet := detach_from_template j P hjtB hjtA hjph xP P₁ hdP
      cases xP with
      | some nd =>
        obtain ⟨tg, aa, cc, hnd_eq, hPermP⟩ := detachF_some_spec j P nd P₁ hdP
        have hP₁ : phId ∉ idsF P₁ := by
          intro hm
          apply hP
          have hmm : phId ∈ List.map Prod.fst ((j, tg) :: (pairsF cc ++ pairsF P₁)) := by
            simp only [List.map_cons, List.map_append, List.mem_cons, List.mem_append]
            exact Or.inr (Or.inr (by simpa [idsF] using hm))
          have := (hPermP.map Prod.fst).mem_iff.mpr hmm
          simpa [idsF] using this
        have hP₂ : phId ∉ idsF (P₁ ++ [nd]) := by
          rw [idsF_append]
          simp only [List.mem_append, not_or]
          refine ⟨hP₁, ?_⟩
          subst hnd_eq
          rw [idsF_cons_elem, idsF_nil]
          simp only [List.append_nil, List.mem_cons, not_or]
          refine ⟨fun h => hjph h.symm, ?_⟩
          intro hm
          apply hP
          have hmm : phId ∈ List.map Prod.fst ((j, tg) :: (pairsF cc ++ pairsF P₁)) := by
            simp only [List.map_cons, List.map_append, List.mem_cons, List.mem_append]
            exact Or.inr (Or.inl (by simpa [idsF] using hm))
          have := (hPermP.map Prod.fst).mem_iff.mpr hmm
          simpa [idsF] using this
        have hpair : insertErrorNode phId ⟨S, tB ++ (P ++ phNode :: tA)⟩ j =
            ⟨S, tB ++ ((P₁ ++ [nd]) ++ phNode :: tA)⟩ := by
          simp only [insertErrorNode, hdS, hOdet]
          rw [insert_into_template nd P₁ hP₁]
        have hdW : detachF j (S ++ (tB ++ (P ++ phNode :: tA))) =
            (some nd, S ++ (tB ++ (P₁ ++ phNode :: tA))) := by
          rw [detachF_append_not_mem j S _ hjS, hOdet]
        have hsingle : stepW (S ++ (tB ++ (P ++ phNode :: tA))) j =
            S ++ (tB ++ ((P₁ ++ [nd]) ++ phNode :: tA)) := by
          simp only [stepW, hdW]
          rw [insertBeforeTop_append_not phId nd S _
            (not_top_marker S phId hS phId_ne_zero), insert_into_template nd P₁ hP₁]
        rcases ih S (P₁ ++ [nd]) hrest hS hP₂ with ⟨S', P', hml, hcat, hS', hP', hsub⟩
        refine ⟨S', P', ?_, ?_, hS', hP', hsub⟩
        · simp only [mergeLoop, List.foldl_cons] at hml ⊢
          rw [hpair]
          exact hml
        · rw [List.foldl_cons, hsingle]
          exact hcat
      | none =>
        have hPP := detachF_none_eq j P P₁ hdP
        subst hPP
        have hpair : insertErrorNode phId ⟨S, tB ++ (P₁ ++ phNode :: tA)⟩ j =
            ⟨S, tB ++ (P₁ ++ phNode :: tA)⟩ := by
          simp only [insertErrorNode, hdS, hOdet]
        have hdW : detachF j (S ++ (tB ++ (P₁ ++ phNode :: tA))) =
            (none, S ++ (tB ++ (P₁ ++ phNode :: tA))) := by
          rw [detachF_append_not_mem j S _ hjS, hOdet]
        have hsingle : stepW (S ++ (tB ++ (P₁ ++ phNode :: tA))) j =
            S ++ (tB ++ (P₁ ++ phNode :: tA)) := by
          simp only [stepW, hdW]
        rcases ih S P₁ hrest hS hP with ⟨S', P', hml, hcat, hS', hP', hsub⟩
        refine ⟨S', P', ?_, ?_, hS', hP', hsub⟩
        · simp only [mergeLoop, List.foldl_cons] at hml ⊢
          rw [hpair]
          exact hml
        · rw [List.foldl_cons, hsingle]
          exact hcat

/-- Splitting an equation of forests at a marker node whose `getId` occurs
neither in the left part of either side. -/
theorem append_marker_split (m : XNode) : ∀ (A₁ A₂ B₁ B₂ : List XNode),
    A₁ ++ m :: B₁ = A₂ ++ m :: B₂ →
    (∀ n ∈ A₁, getId n ≠ getId m) → (∀ n ∈ A₂, getId n ≠ getId m) →
    A₁ = A₂ ∧ B₁ = B₂ := by
  intro A₁
  induction A₁ with
  | nil =>
    intro A₂ B₁ B₂ h h₁ h₂
    cases A₂ with
    | nil => simpa using h
    | cons b A₂' =>
      simp only [List.nil_append, List.cons_append, List.cons.injEq] at h
      exact absurd (h.1 ▸ rfl) (h₂ b (List.mem_cons_self b A₂'))
  | cons a A₁' ih =>
    intro A₂ B₁ B₂ h h₁ h₂
    cases A₂ with
    | nil =>
      simp only [List.nil_append, List.cons_append, List.cons.injEq] at h
      exact absurd (h.1 ▸ rfl) (h₁ a (List.mem_cons_self a A₁'))
    | cons b A₂' =>
      simp only [List.cons_append, List.cons.injEq] at h
      obtain ⟨hab, hrest⟩ := h
      obtain ⟨hA, hB⟩ := ih A₂' B₁ B₂ hrest
        (fun n hn => h₁ n (List.mem_cons_of_mem a hn))
        (fun n hn => h₂ n (List.mem_cons_of_mem b hn))
      exact ⟨by rw [hab, hA], hB⟩

/-- Element ids surviving the strip are ids of the original forest. -/
theorem strip_ids_sub (F : List XNode) : ∀ i ∈ idsF (stripF F), i ∈ idsF F := by
  intro i hi
  have hp := (strip_pairs_perm F).map Prod.fst
  apply hp.mem_iff.mp
  rw [List.map_append, List.mem_append]
  exact Or.inl (by simpa [idsF] using hi)

/-- Element ids of the collected (stripped) records are ids of the original
forest. -/
theorem stripTop_ids_sub (F : List XNode) :
    ∀ i ∈ idsF (List.map stripTop (errsF F)), i ∈ idsF F := by
  intro i hi
  have hp := (strip_pairs_perm F).map Prod.fst
  apply hp.mem_iff.mp
  rw [List.map_append, List.mem_append]
  exact Or.inr (by simpa [idsF] using hi)

set_option maxHeartbeats 1000000 in
/-- Characterization of the merge: under unique live node identities
(disjoint from the template's), merging the collected error records of the
source forest fills the placeholder position with the records in collected
order, each stripped of nested `error` records, and removes the
placeholder. -/
theorem mergeErrors_eq (sources : List XNode)
    (h1 : (idsF sources).Nodup) (h2 : ∀ i ∈ idsF sources, 100 ≤ i) :
    mergeErrors (errsF sources) sources =
      tB ++ (List.map stripTop (errsF sources) ++ tA) := by
  have hphS : phId ∉ idsF sources := by
    intro hm
    have := h2 _ hm
    rw [phId] at this
    omega
  have htBlt : ∀ x ∈ ([2, 3, 4, 5, 6, 7, 8, 9, 10, 11, 12, 13, 14, 15, 16, 17, 18,
      19, 20, 21, 22, 23, 24, 25, 26, 27, 28] : List Nat), x < 100 := by decide
  have htAlt : ∀ x ∈ ([29, 30, 31, 32, 33] : List Nat), x < 100 := by decide
  have hjs : ∀ j ∈ (errsF sources).map getId, j ∉ idsF tB ∧ j ∉ idsF tA ∧ j ≠ phId := by
    intro j hj
    obtain ⟨nn, hnn, hjid⟩ := List.mem_map.1 hj
    have hjS : j ∈ idsF sources := hjid ▸ errsF_ids_sub sources nn hnn
    have h100 := h2 _ hjS
    refine ⟨?_, ?_, ?_⟩
    · rw [tB_ids]
      intro hm
      have := htBlt j hm
      omega
    · rw [tA_ids]
      intro hm
      have := htAlt j hm
      omega
    · rw [phId]
      omega
  obtain ⟨S', P', hml, hcat, hS', hP', hsub⟩ :=
    mergeLoop_shape ((errsF sources).map getId) sources [] hjs hphS (by rw [idsF_nil]; simp)
  -- the one-forest fold, by the main characterization
  have epool : (ctxPairs (FCtx.fhole []) ++ pairsF sources ++ pairsF tB ++
      pairsF tA).map Prod.fst = idsF sources ++ (idsF tB ++ idsF tA) := by
    simp [ctxPairs, pairsF, idsF, List.map_append, List.append_assoc]
  have hnodpool : ((ctxPairs (FCtx.fhole []) ++ pairsF sources ++ pairsF tB ++
      pairsF tA).map Prod.fst).Nodup := by
    rw [epool]
    refine List.Nodup.append h1 ?_ ?_
    · rw [tB_ids, tA_ids]
      decide
    · intro x hx hx'
      have h100 := h2 x hx
      rw [tB_ids, tA_ids] at hx'
      rcases List.mem_append.1 hx' with hm | hm
      · exact absurd (htBlt x hm) (by omega)
      · exact absurd (htAlt x hm) (by omega)
  have hphpool : phId ∉ ((ctxPairs (FCtx.fhole []) ++ pairsF sources ++ pairsF tB ++
      pairsF tA).map Prod.fst) := by
    rw [epool]
    simp only [List.mem_append, not_or]
    exact ⟨hphS, phId_not_tB, phId_not_tA⟩
  have hmove := moveAll_plug (sizeF sources) sources (FCtx.fhole []) tB tA le_rfl
    hnodpool hphpool
  have hplug1 : plug (FCtx.fhole []) sources = sources := by simp [plug]
  have hplug2 : plug (FCtx.fhole []) (stripF sources) = stripF sources := by simp [plug]
  rw [hplug1, hplug2] at hmove
  -- line up the simulated state with the one-forest fold
  simp only [List.nil_append] at hcat
  rw [hmove] at hcat
  -- split the state equation at the placeholder marker
  have hcat2 : (S' ++ (tB ++ P')) ++ phNode :: tA =
      (stripF sources ++ (tB ++ List.map stripTop (errsF sources))) ++ phNode :: tA := by
    simpa [List.append_assoc] using hcat
  have hne2 : ∀ n ∈ S' ++ (tB ++ P'), getId n ≠ getId phNode := by
    intro n hn
    rw [getId_phNode]
    rcases List.mem_append.1 hn with hn | hn
    · exact not_top_marker S' phId hS' phId_ne_zero n hn
    · rcases List.mem_append.1 hn with hn | hn
      · exact not_top_marker tB phId phId_not_tB phId_ne_zero n hn
      · exact not_top_marker P' phId hP' phId_ne_zero n hn
  have hne2' : ∀ n ∈ stripF sources ++ (tB ++ List.map stripTop (errsF sources)),
      getId n ≠ getId phNode := by
    intro n hn
    rw [getId_phNode]
    rcases List.mem_append.1 hn with hn | hn
    · refine not_top_marker _ phId ?_ phId_ne_zero n hn
      intro hm
      exact hphS (strip_ids_sub sources phId hm)
    · rcases List.mem_append.1 hn with hn | hn
      · exact not_top_marker tB phId phId_not_tB phId_ne_zero n hn
      · refine not_top_marker _ phId ?_ phId_ne_zero n hn
        intro hm
        exact hphS (stripTop_ids_sub sources phId hm)
  obtain ⟨hmain, _⟩ := append_marker_split phNode _ _ _ _ hcat2 hne2 hne2'
  -- split again at the protocolversion anchor to isolate the filled region
  have hmain2 : (S' ++ [XNode.text "\n\n"]) ++ protoElem :: (tBrest ++ P') =
      (stripF sources ++ [XNode.text "\n\n"]) ++ protoElem ::
        (tBrest ++ List.map stripTop (errsF sources)) := by
    simpa [tB, List.append_assoc] using hmain
  have hgp : getId protoElem = 2 := rfl
  have hne3 : ∀ n ∈ S' ++ [XNode.text "\n\n"], getId n ≠ getId protoElem := by
    intro n hn
    rw [hgp]
    rcases List.mem_append.1 hn with hn | hn
    · refine not_top_marker S' 2 ?_ (by omega) n hn
      intro hm
      have hmem : (2 : Nat) ∈ idsF sources := by
        have := hsub.map Prod.fst
        exact this.mem (by simpa [idsF] using hm)
      have := h2 _ hmem
      omega
    · have : n = XNode.text "\n\n" := by simpa using hn
      rw [this]
      simp [getId]
  have hne3' : ∀ n ∈ stripF sources ++ [XNode.text "\n\n"], getId n ≠ getId protoElem := by
    intro n hn
    rw [hgp]
    rcases List.mem_append.1 hn with hn | hn
    · refine not_top_marker _ 2 ?_ (by omega) n hn
      intro hm
      have := h2 _ (strip_ids_sub sources 2 hm)
      omega
    · have : n = XNode.text "\n\n" := by simpa using hn
      rw [this]
      simp [getId]
  obtain ⟨_, htail⟩ := append_marker_split protoElem _ _ _ _ hmain2 hne3 hne3'
  have hPE : P' = List.map stripTop (errsF sources) := by
    have hlen : tBrest.length = tBrest.length := rfl
    exact (List.append_inj htail hlen).2
  -- put the pieces together: unfold the merge and remove the placeholder
  have htc : (⟨sources, templateChildren⟩ : MergeState) =
      ⟨sources, tB ++ ([] ++ phNode :: tA)⟩ := by
    simp [templateChildren]
  rw [mergeErrors, htc, hml]
  have hnotop : ∀ n ∈ tB ++ P', getId n ≠ phId := by
    intro n hn
    rcases List.mem_append.1 hn with hn | hn
    · exact not_top_marker tB phId phId_not_tB phId_ne_zero n hn
    · exact not_top_marker P' phId hP' phId_ne_zero n hn
  have hout : removeChildTop phId (tB ++ (P' ++ phNode :: tA)) = tB ++ (P' ++ tA) := by
    rw [← List.append_assoc tB P', removeChildTop_append_not phId (tB ++ P') _ hnotop,
      removeChildTop_marker phId phNode tA getId_phNode]
    simp [List.append_assoc]
  simpa [hPE] using hout

/-! ## Corollaries of the strip characterization -/

theorem errsF_stripF : ∀ F : List XNode, errsF (stripF F) = [] := by
  intro F
  induction F using forest_induction with
  | h1 => simp [stripF, errsF_nil]
  | h2 i t a c r ihc ihr =>
    by_cases ht : t = "error"
    · subst ht
      rw [stripF_cons_error]
      exact ihr
    · rw [stripF_cons_elem_ne i t a c r ht, errsF_cons_elem, if_neg ht, ihc, ihr]
      simp
  | h3 s r ihr => rw [stripF_cons_text, errsF_cons_text]; exact ihr

theorem stripF_of_errsF_nil : ∀ F : List XNode, errsF F = [] → stripF F = F := by
  intro F
  induction F using forest_induction with
  | h1 => intro _; simp [stripF]
  | h2 i t a c r ihc ihr =>
    intro h
    rw [errsF_cons_elem] at h
    rcases List.append_eq_nil.1 h with ⟨h12, h3⟩
    rcases List.append_eq_nil.1 h12 with ⟨h1', h2'⟩
    have ht : t ≠ "error" := by
      intro ht
      rw [if_pos ht] at h1'
      simp at h1'
    rw [stripF_cons_elem_ne i t a c r ht, ihc h2', ihr h3]
  | h3 s r ihr =>
    intro h
    rw [errsF_cons_text] at h
    rw [stripF_cons_text, ihr h]

theorem map_stripTop_of_noNest (F : List XNode) (h : noNestedErrors F) :
    List.map stripTop (errsF F) = errsF F := by
  have : ∀ n ∈ errsF F, stripTop n = n := by
    intro n hn
    rcases errsF_mem F n hn with ⟨i, a, c, hEq, _⟩
    subst hEq
    have hc := h _ hn
    rw [getChildren] at hc
    rw [stripTop_elem, stripF_of_errsF_nil c hc]
  calc List.map stripTop (errsF F) = List.map id (errsF F) :=
        List.map_congr_left (fun n hn => this n hn)
    _ = errsF F := List.map_id _

/-- A list of `error` elements with `error`-free interiors is its own
error traversal. -/
theorem errsF_of_error_elems : ∀ L : List XNode,
    (∀ n ∈ L, ∃ i a c, n = XNode.elem i "error" a c ∧ errsF c = []) →
    errsF L = L := by
  intro L
  induction L with
  | nil => exact fun _ => errsF_nil
  | cons n L' ih =>
    intro h
    rcases h n (List.mem_cons_self n L') with ⟨i, a, c, hEq, hc⟩
    subst hEq
    rw [errsF_cons_error, hc]
    simp only [List.nil_append]
    rw [ih (fun m hm => h m (List.mem_cons_of_mem _ hm))]

theorem errsF_map_stripTop (F : List XNode) :
    errsF (List.map stripTop (errsF F)) = List.map stripTop (errsF F) := by
  apply errsF_of_error_elems
  intro n hn
  rcases List.mem_map.1 hn with ⟨m, hm, hEq⟩
  rcases errsF_mem F m hm with ⟨i, a, c, hm_eq, _⟩
  subst hm_eq
  rw [stripTop_elem] at hEq
  exact ⟨i, a, stripF c, hEq.symm, errsF_stripF c⟩

theorem getId_stripTop (n : XNode) : getId (stripTop n) = getId n := by
  cases n with
  | elem i t a c => rw [stripTop_elem]; rfl
  | text s => rfl

theorem relabelF_cons (σ : Nat → Nat) (n : XNode) (r : List XNode) :
    relabelF σ (n :: r) = relabelN σ n :: relabelF σ r := by
  cases n <;> simp [relabelF, relabelN]

theorem errsF_relabelF (σ : Nat → Nat) : ∀ F : List XNode,
    errsF (relabelF σ F) = List.map (relabelN σ) (errsF F) := by
  intro F
  induction F using forest_induction with
  | h1 => simp [relabelF, errsF_nil]
  | h2 i t a c r ihc ihr =>
    simp only [relabelF]
    rw [errsF_cons_elem, errsF_cons_elem, ihc, ihr]
    by_cases ht : t = "error"
    · subst ht
      simp [relabelN, relabelF]
    · simp [ht]
  | h3 s r ihr => simp only [relabelF]; rw [errsF_cons_text, errsF_cons_text, ihr]

theorem pairsF_relabelF (σ : Nat → Nat) : ∀ F : List XNode,
    pairsF (relabelF σ F) = List.map (fun p : Nat × String => (σ p.1, p.2)) (pairsF F) := by
  intro F
  induction F using forest_induction with
  | h1 => simp [relabelF, pairsF]
  | h2 i t a c r ihc ihr => simp [relabelF, pairsF, pairsF_append, ihc, ihr]
  | h3 s r ihr => simp [relabelF, pairsF, ihr]

theorem idsF_relabelF (σ : Nat → Nat) (F : List XNode) :
    idsF (relabelF σ F) = List.map σ (idsF F) := by
  rw [idsF, idsF, pairsF_relabelF]
  simp [List.map_map, Function.comp]

/-! ## Serialization lemmas -/

theorem serF_append : ∀ A B : List XNode, serF (A ++ B) = serF A ++ serF B := by
  intro A B
  induction A with
  | nil => simp [serF]
  | cons n r ih =>
    cases n with
    | elem i t a c => simp [serF, ih, String.append_assoc]
    | text s => simp [serF, ih, String.append_assoc]

theorem serF_relabelF (σ : Nat → Nat) : ∀ F : List XNode,
    serF (relabelF σ F) = serF F := by
  intro F
  induction F using forest_induction with
  | h1 => simp [relabelF]
  | h2 i t a c r ihc ihr =>
    simp only [relabelF, serF, ihc, ihr]
    by_cases hc : c.isEmpty
    · have : c = [] := by cases c <;> simp_all
      subst this
      simp [relabelF]
    · have : relabelF σ c ≠ [] := by
        cases c with
        | nil => simp at hc
        | cons x xs => rw [relabelF_cons]; simp
      have h2 : (relabelF σ c).isEmpty = false := by
        cases hh : relabelF σ c <;> simp_all
      have h3 : c.isEmpty = false := by cases c <;> simp_all
      simp [h2, h3, ihc]
  | h3 s r ihr => simp [relabelF, serF, ihr]

theorem serN_relabelN (σ : Nat → Nat) (n : XNode) : serN (relabelN σ n) = serN n := by
  have := serF_relabelF σ [n]
  rw [relabelF_cons] at this
  simpa [serN, relabelF] using this

/-- Serialization ignores the model identities. -/
theorem serN_stripTop_ne : serN (stripTop (XNode.elem 100 "error" []
    [XNode.elem 101 "error" [] []])) ≠ serN (XNode.elem 100 "error" []
    [XNode.elem 101 "error" [] []]) := by
  simp [stripTop, stripF, serN, serF, serAttrs]

theorem scanFile_size_zero (st : ScanState) (f : InputFile) (h : f.size = 0) :
    scanFile st f = st := by
  simp [scanFile, h]

theorem scanFile_malformed (st : ScanState) (f : InputFile) (hsz : f.size ≠ 0)
    (hp : f.parsed = none) :
    scanFile st f =
      { st with unparsableFiles := st.unparsableFiles ++ [f.path],
                log := st.log ++ [.processing f.path, .parseFail f.path] } := by
  simp [scanFile, hsz, hp]

theorem scanFile_parsed (st : ScanState) (f : InputFile) (d : List XNode)
    (hsz : f.size ≠ 0) (hp : f.parsed = some d) :
    (scanFile st f).errorNodes = st.errorNodes ++ getElementsByTagName d "error" ∧
    (scanFile st f).unparsableFiles = st.unparsableFiles ∧
    (scanFile st f).log = st.log ++ [.processing f.path] ++
      (if getElementsByTagName d "error" = [] then []
       else [.foundErrors (getElementsByTagName d "error").length f.path]) := by
  by_cases herr : getElementsByTagName d "error" = []
  · simp [scanFile, hsz, hp, tryGetErrors, herr]
  · simp [scanFile, hsz, hp, tryGetErrors, herr]

theorem scan_foldl_errs : ∀ (files : List InputFile) (acc : ScanState),
    (files.foldl scanFile acc).errorNodes = acc.errorNodes ++ errsF (parsedForest files) := by
  intro files
  induction files with
  | nil => intro acc; simp [parsedForest, errsF_nil]
  | cons f fs ih =>
    intro acc
    rw [List.foldl_cons, ih]
    by_cases hsz : f.size ≠ 0
    · cases hp : f.parsed with
      | some d =>
        obtain ⟨he, _, _⟩ := scanFile_parsed acc f d hsz hp
        rw [he]
        have hforest : parsedForest (f :: fs) = d ++ parsedForest fs := by
          simp [parsedForest, List.filterMap_cons, hsz, hp]
        rw [hforest, errsF_append]
        simp only [errsF, List.append_assoc]
      | none =>
        rw [scanFile_malformed acc f hsz hp]
        have hforest : parsedForest (f :: fs) = parsedForest fs := by
          simp [parsedForest, List.filterMap_cons, hsz, hp]
        rw [hforest]
    · have hsz0 : f.size = 0 := by omega
      rw [scanFile_size_zero acc f hsz0]
      have hforest : parsedForest (f :: fs) = parsedForest fs := by
        simp [parsedForest, List.filterMap_cons, hsz0]
      rw [hforest]

theorem scan_foldl_unparsable : ∀ (files : List InputFile) (acc : ScanState),
    (files.foldl scanFile acc).unparsableFiles =
      acc.unparsableFiles ++ unparsable_of files := by
  intro files
  induction files with
  | nil => intro acc; simp [unparsable_of]
  | cons f fs ih =>
    intro acc
    rw [List.foldl_cons, ih]
    by_cases hsz : f.size ≠ 0
    · cases hp : f.parsed with
      | some d =>
        obtain ⟨_, hu, _⟩ := scanFile_parsed acc f d hsz hp
        rw [hu]
        have : unparsable_of (f :: fs) = unparsable_of fs := by
          simp [unparsable_of, List.filterMap_cons, hsz, hp]
        rw [this]
      | none =>
        rw [scanFile_malformed acc f hsz hp]
        have : unparsable_of (f :: fs) = f.path :: unparsable_of fs := by
          simp [unparsable_of, List.filterMap_cons, hsz, hp]
        rw [this]
        simp [List.append_assoc]
    · have hsz0 : f.size = 0 := by omega
      rw [scanFile_size_zero acc f hsz0]
      have : unparsable_of (f :: fs) = unparsable_of fs := by
        simp [unparsable_of, List.filterMap_cons, hsz0]
      rw [this]

theorem scanFile_no_okPass (st : ScanState) (f : InputFile) :
    ((scanFile st f).log.filter isOkPass) = st.log.filter isOkPass := by
  by_cases hsz : f.size ≠ 0
  · cases hp : f.parsed with
    | some d =>
      by_cases herr : getElementsByTagName d "error" = [] <;>
        simp [scanFile, hsz, hp, tryGetErrors, herr, List.filter_append, isOkPass]
    | none => simp [scanFile, hsz, hp, List.filter_append, isOkPass]
  · have hsz0 : f.size = 0 := by omega
    simp [scanFile_size_zero st f hsz0]

theorem scan_foldl_no_okPass : ∀ (files : List InputFile) (acc : ScanState),
    ((files.foldl scanFile acc).log.filter isOkPass) = acc.log.filter isOkPass := by
  intro files
  induction files with
  | nil => intro acc; rfl
  | cons f fs ih =>
    intro acc
    rw [List.foldl_cons, ih, scanFile_no_okPass]

/-! ## The pipeline characterization -/

set_option maxHeartbeats 1000000 in
/-- Under unique live identities disjoint from the template's, a full run
fills the placeholder position of the template with the collected error
records of all parsed documents, in collected order, each stripped of
records nested inside it. -/
theorem main_run_spec (files : List InputFile)
    (h1 : (idsF (parsedForest files)).Nodup)
    (h2 : ∀ i ∈ idsF (parsedForest files), 100 ≤ i) :
    (memcheck_merge.main files).outputChildren =
      tB ++ (List.map stripTop (errsF (parsedForest files)) ++ tA) ∧
    (memcheck_merge.main files).scan.errorNodes = errsF (parsedForest files) := by
  have hscan : (scanFiles files).errorNodes = errsF (parsedForest files) := by
    have := scan_foldl_errs files ⟨[], [], []⟩
    simpa [scanFiles] using this
  constructor
  · show mergeErrors (scanFiles files).errorNodes (parsedForest files) = _
    rw [hscan]
    exact mergeErrors_eq _ h1 h2
  · exact hscan

theorem parsedForest_append (A B : List InputFile) :
    parsedForest (A ++ B) = parsedForest A ++ parsedForest B := by
  simp [parsedForest, List.filterMap_append]

theorem parsedForest_errs : ∀ files : List InputFile,
    errsF (parsedForest files) = (files.map collectedOf).flatten := by
  intro files
  induction files with
  | nil => simp [parsedForest, errsF_nil]
  | cons f fs ih =>
    by_cases hsz : f.size ≠ 0
    · cases hp : f.parsed with
      | some d =>
        have hforest : parsedForest (f :: fs) = d ++ parsedForest fs := by
          simp [parsedForest, List.filterMap_cons, hsz, hp]
        rw [hforest, errsF_append, ih]
        simp only [List.map_cons, List.flatten_cons, collectedOf, if_pos hsz, hp]
        rfl
      | none =>
        have hforest : parsedForest (f :: fs) = parsedForest fs := by
          simp [parsedForest, List.filterMap_cons, hsz, hp]
        rw [hforest, ih]
        simp [collectedOf, hsz, hp]
    · have hsz0 : f.size = 0 := by omega
      have hforest : parsedForest (f :: fs) = parsedForest fs := by
        simp [parsedForest, List.filterMap_cons, hsz0]
      rw [hforest, ih]
      simp [collectedOf, hsz0]

theorem errsF_output (E : List XNode) (hE : errsF E = E) :
    errsF (tB ++ (E ++ tA)) = E := by
  rw [errsF_append, errsF_append, tB_errsF, tA_errsF, hE]
  simp

theorem serF_singleton_elem (i : Nat) (t : String) (a : List (String × String))
    (c : List XNode) (h : c.isEmpty = false) :
    serF [XNode.elem i t a c] =
      ("<" ++ t ++ serAttrs a ++ ">" ++ serF c ++ ("</" ++ t ++ ">")) := by
  simp [serF, h, String.append_assoc]

theorem serDoc_split (mid : List XNode) :
    serDoc (tB ++ (mid ++ tA)) = serPRE ++ (serF mid ++ serPOST) := by
  have hne : (tB ++ (mid ++ tA)).isEmpty = false := by simp [tB]
  rw [serDoc, serF_singleton_elem 1 "valgrindoutput" [] _ hne]
  rw [serF_append, serF_append]
  simp [serPRE, serPOST, serAttrs, String.append_assoc]

/-! ## Claim theorems -/

set_option maxHeartbeats 1000000 in
/-- C1 (amended): for every set of well-formed input report files in which no
`error` element is nested inside another `error` element (modelled by
distinct live node identities, disjoint from the template's, and
`noNestedErrors`), the output document contains exactly K `error` elements
where K is the total number collected across all files, ordered by
file-enumeration order and, within one file, by document order, and each
record is byte-identical (equal as a tree, hence equal under serialization)
to its occurrence in the source file. -/
theorem C1_merge_output_records (files : List InputFile)
    (h1 : (idsF (parsedForest files)).Nodup)
    (h2 : ∀ i ∈ idsF (parsedForest files), 100 ≤ i)
    (h3 : noNestedErrors (parsedForest files)) :
    getElementsByTagName (memcheck_merge.main files).outputChildren "error" =
      (files.map collectedOf).flatten ∧
    (getElementsByTagName (memcheck_merge.main files).outputChildren "error").length =
      ((files.map collectedOf).map List.length).sum ∧
    (getElementsByTagName (memcheck_merge.main files).outputChildren "error").map serN =
      ((files.map collectedOf).flatten).map serN := by
  obtain ⟨hout, _⟩ := main_run_spec files h1 h2
  have hmain : getElementsByTagName (memcheck_merge.main files).outputChildren "error" =
      (files.map collectedOf).flatten := by
    show errsF (memcheck_merge.main files).outputChildren = _
    rw [hout, errsF_output _ (errsF_map_stripTop (parsedForest files)),
      map_stripTop_of_noNest _ h3, parsedForest_errs]
  refine ⟨hmain, ?_, by rw [hmain]⟩
  rw [hmain]
  simp [List.length_flatten]

set_option maxHeartbeats 1000000 in
/-- C2: after the merge, the placeholder is gone from the output document,
the collected records appear (as the roots inserted immediately before the
placeholder's position, in collected order) exactly where the placeholder
stood, and with zero collected records the placeholder is simply removed,
leaving a document with no `error` children. -/
theorem C2_placeholder_replaced (files : List InputFile)
    (h1 : (idsF (parsedForest files)).Nodup)
    (h2 : ∀ i ∈ idsF (parsedForest files), 100 ≤ i) :
    ∃ placed, (memcheck_merge.main files).outputChildren = tB ++ (placed ++ tA) ∧
      placed.map getId = ((memcheck_merge.main files).scan.errorNodes).map getId ∧
      (∀ p ∈ placed, ∃ i a c, p = XNode.elem i "error" a c) ∧
      phId ∉ idsF (memcheck_merge.main files).outputChildren ∧
      ((memcheck_merge.main files).scan.errorNodes = [] →
        (memcheck_merge.main files).outputChildren = tB ++ tA ∧
        getElementsByTagName (memcheck_merge.main files).outputChildren "error" = []) := by
  obtain ⟨hout, hscan⟩ := main_run_spec files h1 h2
  refine ⟨List.map stripTop (errsF (parsedForest files)), hout, ?_, ?_, ?_, ?_⟩
  · rw [hscan, List.map_map]
    exact List.map_congr_left (fun n _ => getId_stripTop n)
  · intro p hp
    rcases List.mem_map.1 hp with ⟨m, hm, hEq⟩
    rcases errsF_mem _ m hm with ⟨i, a, c, hm_eq, _⟩
    subst hm_eq
    rw [stripTop_elem] at hEq
    exact ⟨i, a, stripF c, hEq.symm⟩
  · rw [hout, idsF_append, idsF_append]
    simp only [List.mem_append, not_or]
    refine ⟨phId_not_tB, ?_, phId_not_tA⟩
    intro hm
    have hmem := stripTop_ids_sub (parsedForest files) phId hm
    have := h2 _ hmem
    rw [phId] at this
    omega
  · intro hempty
    rw [hscan] at hempty
    rw [hempty] at hout
    simp only [List.map_nil, List.nil_append] at hout
    refine ⟨hout, ?_⟩
    show errsF _ = []
    rw [hout, errsF_append, tB_errsF, tA_errsF]
    simp

/-- C4: a file of nonzero size that fails to parse is recorded in the
unparsable-files sequence and the scan continues with the remaining files;
the run still completes, and the output document it writes is the same as
if the malformed file had not been there. -/
theorem C4_malformed_continues (files1 files2 : List InputFile) (f : InputFile)
    (st : ScanState) (hsz : f.size ≠ 0) (hp : f.parsed = none) :
    scanFile st f =
      { st with unparsableFiles := st.unparsableFiles ++ [f.path],
                log := st.log ++ [.processing f.path, .parseFail f.path] } ∧
    scanFiles (files1 ++ f :: files2) =
      List.foldl scanFile (scanFile (List.foldl scanFile ⟨[], [], []⟩ files1) f) files2 ∧
    f.path ∈ (memcheck_merge.main (files1 ++ f :: files2)).scan.unparsableFiles ∧
    (memcheck_merge.main (files1 ++ f :: files2)).outputChildren =
      (memcheck_merge.main (files1 ++ files2)).outputChildren := by
  refine ⟨scanFile_malformed st f hsz hp, by simp [scanFiles, List.foldl_append], ?_, ?_⟩
  · show f.path ∈ (scanFiles (files1 ++ f :: files2)).unparsableFiles
    have := scan_foldl_unparsable (files1 ++ f :: files2) ⟨[], [], []⟩
    simp only [scanFiles] at *
    rw [this]
    simp only [List.nil_append]
    apply List.mem_filterMap.2
    exact ⟨f, by simp, by simp [hsz, hp]⟩
  · have hforest : parsedForest (files1 ++ f :: files2) = parsedForest (files1 ++ files2) := by
      rw [parsedForest_append, parsedForest_append]
      congr 1
      simp [parsedForest, List.filterMap_cons, hsz, hp]
    have herrs : (scanFiles (files1 ++ f :: files2)).errorNodes =
        (scanFiles (files1 ++ files2)).errorNodes := by
      have e1 := scan_foldl_errs (files1 ++ f :: files2) ⟨[], [], []⟩
      have e2 := scan_foldl_errs (files1 ++ files2) ⟨[], [], []⟩
      simp only [scanFiles] at *
      rw [e1, e2, hforest]
    show mergeErrors (scanFiles (files1 ++ f :: files2)).errorNodes
        (parsedForest (files1 ++ f :: files2)) = _
    rw [herrs, hforest]
    rfl

/-- C5: for every successfully parsed file, the scanner appends all `error`
elements found anywhere in the document tree, in document order (the
traversal filters the preorder enumeration of all elements at any depth),
to the collected sequence; a file with zero `error` elements contributes
nothing and is not recorded as unparsable. -/
theorem C5_collects_all_depths (st : ScanState) (f : InputFile) (d : List XNode)
    (hsz : f.size ≠ 0) (hp : f.parsed = some d) :
    (scanFile st f).errorNodes = st.errorNodes ++ getElementsByTagName d "error" ∧
    (scanFile st f).unparsableFiles = st.unparsableFiles ∧
    getElementsByTagName d "error" =
      (preorderElems d).filter (fun n => getTag n == "error") ∧
    (getElementsByTagName d "error" = [] →
      scanFile st f = { st with log := st.log ++ [.processing f.path] }) := by
  obtain ⟨he, hu, _⟩ := scanFile_parsed st f d hsz hp
  refine ⟨he, hu, getElementsByTagName_eq_filter d "error", ?_⟩
  intro herr
  simp [scanFile, hsz, hp, tryGetErrors, herr]

/-- C6: a zero-size candidate file is skipped entirely: it is neither
parsed nor counted, and the whole run behaves exactly as if the file were
absent. -/
theorem C6_zero_size_skipped (files1 files2 : List InputFile) (f : InputFile)
    (st : ScanState) (h : f.size = 0) :
    scanFile st f = st ∧
    memcheck_merge.main (files1 ++ f :: files2) = memcheck_merge.main (files1 ++ files2) := by
  refine ⟨scanFile_size_zero st f h, ?_⟩
  have hscan : scanFiles (files1 ++ f :: files2) = scanFiles (files1 ++ files2) := by
    simp [scanFiles, List.foldl_append, scanFile_size_zero _ f h]
  have hforest : parsedForest (files1 ++ f :: files2) = parsedForest (files1 ++ files2) := by
    rw [parsedForest_append, parsedForest_append]
    congr 1
    simp [parsedForest, List.filterMap_cons, h]
  simp only [memcheck_merge.main, hscan, hforest]

/-- C10: `getElementsByTagName` is a total method of every parsed document,
so the `except AttributeError` handler — the only place that emits the
per-file `OK` diagnostic — never runs: no scan ever logs an `OK` entry, and
a cleanly parsed file with zero `error` elements contributes only the
generic processing message to the log. -/
theorem C10_okPass_dead (files : List InputFile) :
    ((scanFiles files).log.filter isOkPass) = [] ∧
    (∀ (st : ScanState) (f : InputFile) (d : List XNode), f.size ≠ 0 →
      f.parsed = some d → getElementsByTagName d "error" = [] →
      (scanFile st f).log = st.log ++ [LogEntry.processing f.path]) := by
  constructor
  · have := scan_foldl_no_okPass files ⟨[], [], []⟩
    simpa [scanFiles] using this
  · intro st f d hsz hp herr
    simp [scanFile, hsz, hp, tryGetErrors, herr]

theorem ne_of_length_ne (s t : String) (h : s.length ≠ t.length) : s ≠ t :=
  fun hEq => h (by rw [hEq])

set_option maxHeartbeats 1000000 in
/-- C3: the result-reporting function emits the `no issues` summary at
informational severity exactly when both counts are zero; otherwise it
emits, at error severity, a message containing the number of errors
collected and/or the number of unparsable files, with singular phrasing
exactly when a count is one. -/
theorem C3_summary (e u : Nat) :
    (e = 0 ∧ u = 0 → print_results e u =
      (Severity.info, "No memcheck errors or parsing issues encountered.")) ∧
    (e > 0 ∨ u > 0 → (print_results e u).1 = Severity.error) ∧
    (e > 0 → strContains (print_results e u).2
      (if e = 1 then " 1 error" else " " ++ toString e ++ " errors")) ∧
    (u > 0 → strContains (print_results e u).2
      (if u = 1 then " 1 unparsable file" else " " ++ toString u ++ " unparsable files.")) := by
  have h1 : ("!!!" : String).length = 3 := by decide
  have h2 : (" Found" : String).length = 6 := by decide
  have h3 : (" " : String).length = 1 := by decide
  have h4 : (" errors" : String).length = 7 := by decide
  have h5 : ("," : String).length = 1 := by decide
  have h6 : (" unparsable files." : String).length = 18 := by decide
  have h7 : (" 1 error" : String).length = 8 := by decide
  have h0 : ("" : String).length = 0 := by decide
  by_cases he : e = 0
  · subst he
    by_cases hu : u = 0
    · subst hu
      exact ⟨fun _ => by decide, fun h => by omega, fun h => by omega, fun h => by omega⟩
    · have hu' : 0 < u := Nat.pos_of_ne_zero hu
      by_cases hu1 : u = 1
      · subst hu1
        exact ⟨fun h => by omega, fun _ => by decide, fun h => by omega,
          fun _ => ⟨"!!!,", "", by decide⟩⟩
      · have heval : print_results 0 u = (Severity.error,
            "!!!" ++ "," ++ " " ++ toString u ++ " unparsable files.") := by
          simp only [print_results, gt_iff_lt, Nat.lt_irrefl, if_false, if_pos hu', if_neg hu1]
          rw [if_neg (show ¬(("!!!" : String) = "") from by decide)]
          rw [if_pos (show ("!!!" ++ "," ++ " " ++ toString u ++ " unparsable files." : String) ≠ "!!!" from
            ne_of_length_ne _ _ (by simp only [String.length_append]; omega))]
        have hm : (print_results 0 u).2 =
            "!!!" ++ "," ++ " " ++ toString u ++ " unparsable files." := by rw [heval]
        refine ⟨fun h => by omega, fun _ => by rw [heval], fun h => by omega, fun _ => ?_⟩
        rw [hm, if_neg hu1]
        exact ⟨"!!!" ++ ",", "", by simp only [String.append_assoc, String.append_empty]⟩
  · have he' : 0 < e := Nat.pos_of_ne_zero he
    by_cases he1 : e = 1
    · by_cases hu : u = 0
      · subst hu
        subst he1
        exact ⟨fun h => by omega, fun _ => by decide,
          fun _ => ⟨"!!! Found", "", by decide⟩, fun h => by omega⟩
      · have hu' : 0 < u := Nat.pos_of_ne_zero hu
        by_cases hu1 : u = 1
        · subst he1; subst hu1
          exact ⟨fun h => by omega, fun _ => by decide,
            fun _ => ⟨"!!! Found", ", 1 unparsable file", by decide⟩,
            fun _ => ⟨"!!! Found 1 error,", "", by decide⟩⟩
        · have heval : print_results e u = (Severity.error,
              "!!!" ++ " Found" ++ " 1 error" ++ "," ++ " " ++ toString u ++ " unparsable files.") := by
            simp only [print_results, gt_iff_lt, if_pos he', if_pos he1, if_pos hu', if_neg hu1]
            rw [if_neg (show ¬("!!!" ++ " Found" ++ " 1 error" = "") from
              ne_of_length_ne _ _ (by simp only [String.length_append]; omega))]
            rw [if_pos (show ("!!!" ++ " Found" ++ " 1 error" ++ "," ++ " " ++ toString u ++ " unparsable files." : String) ≠ "!!!" from
              ne_of_length_ne _ _ (by simp only [String.length_append]; omega))]
          have hm : (print_results e u).2 =
              "!!!" ++ " Found" ++ " 1 error" ++ "," ++ " " ++ toString u ++ " unparsable files." := by
            rw [heval]
          refine ⟨fun h => by omega, fun _ => by rw [heval], fun _ => ?_, fun _ => ?_⟩
          · rw [hm, if_pos he1]
            exact ⟨"!!!" ++ " Found", "," ++ " " ++ toString u ++ " unparsable files.",
              by simp only [String.append_assoc]⟩
          · rw [hm, if_neg hu1]
            exact ⟨"!!!" ++ " Found" ++ " 1 error" ++ ",", "",
              by simp only [String.append_assoc, String.append_empty]⟩
    · by_cases hu : u = 0
      · subst hu
        have heval : print_results e 0 = (Severity.error,
            "!!!" ++ " Found" ++ " " ++ toString e ++ " errors") := by
          simp only [print_results, gt_iff_lt, Nat.lt_irrefl, if_false, if_pos he', if_neg he1]
          rw [if_pos (show ("!!!" ++ " Found" ++ " " ++ toString e ++ " errors" : String) ≠ "!!!" from
            ne_of_length_ne _ _ (by simp only [String.length_append]; omega))]
        have hm : (print_results e 0).2 =
            "!!!" ++ " Found" ++ " " ++ toString e ++ " errors" := by rw [heval]
        refine ⟨fun h => by omega, fun _ => by rw [heval], fun _ => ?_, fun h => by omega⟩
        rw [hm, if_neg he1]
        exact ⟨"!!!" ++ " Found", "", by simp only [String.append_assoc, String.append_empty]⟩
      · have hu' : 0 < u := Nat.pos_of_ne_zero hu
        by_cases hu1 : u = 1
        · subst hu1
          have heval : print_results e 1 = (Severity.error,
              "!!!" ++ " Found" ++ " " ++ toString e ++ " errors" ++ "," ++ " 1 unparsable file") := by
            simp only [print_results, gt_iff_lt, if_pos he', if_neg he1, if_pos hu',
              if_true]
            rw [if_neg (show ¬("!!!" ++ " Found" ++ " " ++ toString e ++ " errors" = "") from
              ne_of_length_ne _ _ (by simp only [String.length_append]; omega))]
            rw [if_pos (show ("!!!" ++ " Found" ++ " " ++ toString e ++ " errors" ++ "," ++ " 1 unparsable file" : String) ≠ "!!!" from
              ne_of_length_ne _ _ (by
                simp only [String.length_append]
                have h8 : (" 1 unparsable file" : String).length = 18 := by decide
                omega))]
          have hm : (print_results e 1).2 =
              "!!!" ++ " Found" ++ " " ++ toString e ++ " errors" ++ "," ++ " 1 unparsable file" := by
            rw [heval]
          refine ⟨fun h => by omega, fun _ => by rw [heval], fun _ => ?_, fun _ => ?_⟩
          · rw [hm, if_neg he1]
            exact ⟨"!!!" ++ " Found", "," ++ " 1 unparsable file",
              by simp only [String.append_assoc]⟩
          · rw [hm, if_pos rfl]
            exact ⟨"!!!" ++ " Found" ++ " " ++ toString e ++ " errors" ++ ",", "",
              by simp only [String.append_assoc, String.append_empty]⟩
        · have heval : print_results e u = (Severity.error,
              "!!!" ++ " Found" ++ " " ++ toString e ++ " errors" ++ "," ++ " " ++ toString u ++ " unparsable files.") := by
            simp only [print_results, gt_iff_lt, if_pos he', if_neg he1, if_pos hu', if_neg hu1]
            rw [if_neg (show ¬("!!!" ++ " Found" ++ " " ++ toString e ++ " errors" = "") from
              ne_of_length_ne _ _ (by simp only [String.length_append]; omega))]
            rw [if_pos (show ("!!!" ++ " Found" ++ " " ++ toString e ++ " errors" ++ "," ++ " " ++ toString u ++ " unparsable files." : String) ≠ "!!!" from
              ne_of_length_ne _ _ (by simp only [String.length_append]; omega))]
          have hm : (print_results e u).2 =
              "!!!" ++ " Found" ++ " " ++ toString e ++ " errors" ++ "," ++ " " ++ toString u ++ " unparsable files." := by
            rw [heval]
          refine ⟨fun h => by omega, fun _ => by rw [heval], fun _ => ?_, fun _ => ?_⟩
          · rw [hm, if_neg he1]
            exact ⟨"!!!" ++ " Found", "," ++ " " ++ toString u ++ " unparsable files.",
              by simp only [String.append_assoc]⟩
          · rw [hm, if_neg hu1]
            exact ⟨"!!!" ++ " Found" ++ " " ++ toString e ++ " errors" ++ ",", "",
              by simp only [String.append_assoc, String.append_empty]⟩

/-- C9: parsing the built-in template (modelled by the fixed parsed tree
`output_file_template`) yields a document whose `getElementsByTagName("error")`
list is exactly the singleton placeholder, so the unguarded `[0]` access and
the `parentNode` lookup (the root element) always succeed; the fatal
template-parse branch is unreachable. -/
theorem C9_template_placeholder_safe :
    errsF output_file_template = [phNode] ∧
    output_file_template = [XNode.elem 1 "valgrindoutput" [] (tB ++ phNode :: tA)] := by
  have e1 : errsF output_file_template =
      (if "valgrindoutput" = "error" then [XNode.elem 1 "valgrindoutput" [] templateChildren]
        else []) ++ errsF templateChildren ++ errsF [] :=
    errsF_cons_elem 1 "valgrindoutput" [] templateChildren []
  have e2 : ((if "valgrindoutput" = "error" then [XNode.elem 1 "valgrindoutput" [] templateChildren]
      else []) : List XNode) = [] :=
    if_neg (by decide)
  have e3 : errsF templateChildren = [phNode] := by
    show errsF (tB ++ phNode :: tA) = [phNode]
    rw [errsF_append, tB_errsF,
      show phNode = XNode.elem phId "error" [] [] from rfl,
      errsF_cons_error, errsF_nil, tA_errsF]
    rfl
  refine ⟨?_, rfl⟩
  rw [e1, e2, e3, errsF_nil]
  rfl

/-- C8: the serialized output always reproduces the fixed non-error scaffold
byte-exactly: it is `serPRE ++ (region ++ serPOST)` where `serPRE`/`serPOST`
are the template's serialized scaffold around the placeholder, and only the
region between them (the serialized collected records) depends on the input;
the template itself serializes to the same scaffold around the placeholder
element. -/
theorem C8_fixed_scaffold (files : List InputFile)
    (h1 : (idsF (parsedForest files)).Nodup)
    (h2 : ∀ i ∈ idsF (parsedForest files), 100 ≤ i) :
    serDoc (memcheck_merge.main files).outputChildren =
      serPRE ++ (serF (List.map stripTop (errsF (parsedForest files))) ++ serPOST) ∧
    serDoc templateChildren = serPRE ++ (serN phNode ++ serPOST) := by
  constructor
  · rw [(main_run_spec files h1 h2).1]
    exact serDoc_split _
  · show serDoc (tB ++ ([phNode] ++ tA)) = serPRE ++ (serN phNode ++ serPOST)
    rw [serDoc_split [phNode]]
    rfl

theorem tB_ids_small : ∀ x ∈ ([2, 3, 4, 5, 6, 7, 8, 9, 10, 11, 12, 13, 14, 15, 16,
    17, 18, 19, 20, 21, 22, 23, 24, 25, 26, 27, 28] : List Nat), x < 100 := by decide

theorem tA_ids_small : ∀ x ∈ ([29, 30, 31, 32, 33] : List Nat), x < 100 := by decide

theorem tB_ids_le : ∀ x ∈ ([2, 3, 4, 5, 6, 7, 8, 9, 10, 11, 12, 13, 14, 15, 16,
    17, 18, 19, 20, 21, 22, 23, 24, 25, 26, 27, 28] : List Nat), x ≤ 28 := by decide

theorem tA_ids_ge : ∀ x ∈ ([29, 30, 31, 32, 33] : List Nat), 29 ≤ x := by decide

/-- The collected (stripped) records carry pairwise-distinct identities when
the sources do. -/
theorem stripTop_ids_nodup (S : List XNode) (h1 : (idsF S).Nodup) :
    (idsF (List.map stripTop (errsF S))).Nodup := by
  have hperm := (strip_pairs_perm S).map Prod.fst
  rw [List.map_append] at hperm
  have h1' : (List.map Prod.fst (pairsF S)).Nodup := h1
  have hnd := hperm.nodup_iff.mpr h1'
  exact List.Nodup.of_append_right hnd

/-- The output child list of a merge over well-identified sources has
pairwise-distinct identities. -/
theorem output_ids_nodup (S : List XNode) (h1 : (idsF S).Nodup)
    (h2 : ∀ i ∈ idsF S, 100 ≤ i) :
    (idsF (tB ++ (List.map stripTop (errsF S) ++ tA))).Nodup := by
  have hP100 : ∀ i ∈ idsF (List.map stripTop (errsF S)), 100 ≤ i :=
    fun i hi => h2 i (stripTop_ids_sub S i hi)
  rw [idsF_append, idsF_append, List.nodup_append, List.nodup_append]
  refine ⟨by rw [tB_ids]; decide,
    ⟨stripTop_ids_nodup S h1, by rw [tA_ids]; decide, ?_⟩, ?_⟩
  · intro a ha hb
    have hge := hP100 a ha
    rw [tA_ids] at hb
    have := tA_ids_small a hb
    omega
  · intro a ha hb
    rw [tB_ids] at ha
    have hlt := tB_ids_small a ha
    rcases List.mem_append.1 hb with hb1 | hb2
    · have := hP100 a hb1
      omega
    · rw [tA_ids] at hb2
      have hle := tB_ids_le a ha
      have hge := tA_ids_ge a hb2
      omega

theorem parsedForest_single (g : InputFile) (d : List XNode) (h1 : g.size ≠ 0)
    (h2 : g.parsed = some d) : parsedForest [g] = d := by
  simp [parsedForest, h1, h2]

set_option maxHeartbeats 1000000 in
/-- C7: merging is idempotent — feeding the produced output back through the
pipeline as the single input file (re-parsed with fresh node identities,
modelled by an injective relabelling into the live-id range) yields an
output whose `error` elements serialize identically, in the same order, to
the first output's. -/
theorem C7_idempotent (files : List InputFile) (σ : Nat → Nat) (g : InputFile)
    (h1 : (idsF (parsedForest files)).Nodup)
    (h2 : ∀ i ∈ idsF (parsedForest files), 100 ≤ i)
    (hσ : Function.Injective σ)
    (hσ100 : ∀ n, 100 ≤ σ n)
    (hg1 : g.size ≠ 0)
    (hg2 : g.parsed = some (relabelF σ (memcheck_merge.main files).outputChildren)) :
    (errsF (memcheck_merge.main [g]).outputChildren).map serN =
      (errsF (memcheck_merge.main files).outputChildren).map serN := by
  have hout1 := (main_run_spec files h1 h2).1
  have hpf : parsedForest [g] = relabelF σ (memcheck_merge.main files).outputChildren :=
    parsedForest_single g _ hg1 hg2
  have hnd1 : (idsF (memcheck_merge.main files).outputChildren).Nodup := by
    rw [hout1]
    exact output_ids_nodup _ h1 h2
  have h1g : (idsF (parsedForest [g])).Nodup := by
    rw [hpf, idsF_relabelF]
    exact hnd1.map hσ
  have h2g : ∀ i ∈ idsF (parsedForest [g]), 100 ≤ i := by
    rw [hpf, idsF_relabelF]
    intro i hi
    rcases List.mem_map.1 hi with ⟨j, _, rfl⟩
    exact hσ100 j
  have hout2 := (main_run_spec [g] h1g h2g).1
  have hE1 : errsF (memcheck_merge.main files).outputChildren =
      List.map stripTop (errsF (parsedForest files)) := by
    rw [hout1]
    exact errsF_output _ (errsF_map_stripTop _)
  have hE2 : errsF (parsedForest [g]) =
      List.map (relabelN σ) (List.map stripTop (errsF (parsedForest files))) := by
    rw [hpf, errsF_relabelF, hE1]
  have hnn : noNestedErrors (parsedForest [g]) := by
    intro n hn
    rw [hE2] at hn
    rcases List.mem_map.1 hn with ⟨m, hm, rfl⟩
    rcases List.mem_map.1 hm with ⟨q, hq, rfl⟩
    rcases errsF_mem _ q hq with ⟨i, a, c, rfl, _⟩
    rw [stripTop_elem]
    show errsF (relabelF σ (stripF c)) = []
    rw [errsF_relabelF, errsF_stripF]
    rfl
  have hstrip2 : List.map stripTop (errsF (parsedForest [g])) = errsF (parsedForest [g]) :=
    map_stripTop_of_noNest _ hnn
  have hE3 : errsF (memcheck_merge.main [g]).outputChildren =
      List.map stripTop (errsF (parsedForest [g])) := by
    rw [hout2]
    exact errsF_output _ (errsF_map_stripTop _)
  calc (errsF (memcheck_merge.main [g]).outputChildren).map serN
      = (List.map (relabelN σ)
          (List.map stripTop (errsF (parsedForest files)))).map serN := by
        rw [hE3, hstrip2, hE2]
    _ = (List.map stripTop (errsF (parsedForest files))).map serN := by
        rw [List.map_map]
        exact List.map_congr_left (fun n _ => serN_relabelN σ n)
    _ = (errsF (memcheck_merge.main files).outputChildren).map serN := by rw [hE1]

/-- C1 (counterexample to the original byte-identity clause): on an input
whose `error` record contains a nested `error` record, `insertBefore` MOVES
the nested record out of its parent, so the records that reach the output
are not byte-identical to their occurrences in the source: the serialized
output records differ from the serialized collected source records. -/
theorem C1_counterexample :
    ¬ ((errsF (memcheck_merge.main [nestedFile]).outputChildren).map serN =
      ((memcheck_merge.main [nestedFile]).scan.errorNodes).map serN) := by
  have hpf : parsedForest [nestedFile] =
      [XNode.elem 100 "error" [] [XNode.elem 101 "error" [] []]] :=
    parsedForest_single _ _ (by decide) rfl
  have hids : idsF [XNode.elem 100 "error" [] [XNode.elem 101 "error" [] []]] =
      [100, 101] := by
    simp [idsF, pairsF]
  have he : errsF (parsedForest [nestedFile]) =
      [XNode.elem 100 "error" [] [XNode.elem 101 "error" [] []],
        XNode.elem 101 "error" [] []] := by
    rw [hpf]
    simp only [errsF_cons_error, errsF_nil, List.append_nil, List.nil_append]
  have h1 : (idsF (parsedForest [nestedFile])).Nodup := by
    rw [hpf, hids]
    decide
  have h2 : ∀ i ∈ idsF (parsedForest [nestedFile]), 100 ≤ i := by
    rw [hpf, hids]
    decide
  obtain ⟨hout, herr⟩ := main_run_spec [nestedFile] h1 h2
  have hEout : errsF (memcheck_merge.main [nestedFile]).outputChildren =
      List.map stripTop (errsF (parsedForest [nestedFile])) := by
    rw [hout]
    exact errsF_output _ (errsF_map_stripTop _)
  rw [hEout, herr, he]
  intro hEq
  simp only [List.map_cons, List.map_nil] at hEq
  injection hEq with hh ht
  exact serN_stripTop_ne hh

theorem wfile1_pf : parsedForest [wfile1] = wdoc :=
  parsedForest_single _ _ (by decide) rfl

theorem wdoc_errs : errsF wdoc =
    [XNode.elem 101 "error" [] [], XNode.elem 102 "error" [] []] := by
  show errsF [XNode.elem 100 "valgrindoutput" []
    [XNode.elem 101 "error" [] [], XNode.elem 102 "error" [] []]] = _
  rw [errsF_cons_elem, if_neg (show ¬("valgrindoutput" = "error") from by decide)]
  simp only [errsF_cons_error, errsF_nil, List.append_nil, List.nil_append]

theorem wfile1_ids : idsF (parsedForest [wfile1]) = [100, 101, 102] := by
  rw [wfile1_pf]
  simp [idsF, pairsF, wdoc]

theorem wfile1_nodup : (idsF (parsedForest [wfile1])).Nodup := by
  rw [wfile1_ids]
  decide

theorem wfile1_ge : ∀ i ∈ idsF (parsedForest [wfile1]), 100 ≤ i := by
  rw [wfile1_ids]
  decide

theorem wfile1_noNest : noNestedErrors (parsedForest [wfile1]) := by
  intro n hn
  rw [wfile1_pf, wdoc_errs] at hn
  simp only [List.mem_cons, List.not_mem_nil, or_false] at hn
  rcases hn with rfl | rfl
  · exact errsF_nil
  · exact errsF_nil

/-- C1 witness: the amended statement holds on a concrete two-record file. -/
theorem C1_witness :
    (idsF (parsedForest [wfile1])).Nodup ∧
    (∀ i ∈ idsF (parsedForest [wfile1]), 100 ≤ i) ∧
    noNestedErrors (parsedForest [wfile1]) ∧
    getElementsByTagName (memcheck_merge.main [wfile1]).outputChildren "error" =
      ([wfile1].map collectedOf).flatten :=
  ⟨wfile1_nodup, wfile1_ge, wfile1_noNest,
    (C1_merge_output_records [wfile1] wfile1_nodup wfile1_ge wfile1_noNest).1⟩

/-- C2 witness: placeholder replacement on a concrete two-record file. -/
theorem C2_witness :
    (idsF (parsedForest [wfile1])).Nodup ∧
    (∀ i ∈ idsF (parsedForest [wfile1]), 100 ≤ i) ∧
    ∃ placed, (memcheck_merge.main [wfile1]).outputChildren = tB ++ (placed ++ tA) ∧
      placed.map getId = ((memcheck_merge.main [wfile1]).scan.errorNodes).map getId ∧
      (∀ p ∈ placed, ∃ i a c, p = XNode.elem i "error" a c) ∧
      phId ∉ idsF (memcheck_merge.main [wfile1]).outputChildren ∧
      ((memcheck_merge.main [wfile1]).scan.errorNodes = [] →
        (memcheck_merge.main [wfile1]).outputChildren = tB ++ tA ∧
        getElementsByTagName (memcheck_merge.main [wfile1]).outputChildren "error" = []) :=
  ⟨wfile1_nodup, wfile1_ge, C2_placeholder_replaced [wfile1] wfile1_nodup wfile1_ge⟩

/-- C3 witness: the spec's scenario counts (2 errors, 1 unparsable file). -/
theorem C3_witness :
    (print_results 2 1).1 = Severity.error ∧
    strContains (print_results 2 1).2 (" " ++ toString 2 ++ " errors") ∧
    strContains (print_results 2 1).2 " 1 unparsable file" := by
  have h := C3_summary 2 1
  refine ⟨h.2.1 (by omega), ?_, ?_⟩
  · have h3 := h.2.2.1 (by omega)
    rw [if_neg (show ¬((2 : Nat) = 1) from by omega)] at h3
    exact h3
  · have h4 := h.2.2.2 (by omega)
    rw [if_pos rfl] at h4
    exact h4

/-- C4 witness: a concrete malformed file lands in the unparsable list. -/
theorem C4_witness :
    wfileBad.size ≠ 0 ∧ wfileBad.parsed = none ∧
    wfileBad.path ∈ (memcheck_merge.main ([] ++ wfileBad :: [])).scan.unparsableFiles :=
  ⟨by decide, rfl,
    (C4_malformed_continues [] [] wfileBad ⟨[], [], []⟩ (by decide) rfl).2.2.1⟩

/-- C5 witness: a concrete parsed file contributes its deep `error` elements. -/
theorem C5_witness :
    wfile1.size ≠ 0 ∧ wfile1.parsed = some wdoc ∧
    (scanFile ⟨[], [], []⟩ wfile1).errorNodes = [] ++ getElementsByTagName wdoc "error" :=
  ⟨by decide, rfl, (C5_collects_all_depths ⟨[], [], []⟩ wfile1 wdoc (by decide) rfl).1⟩

/-- C6 witness: a concrete zero-size file changes nothing. -/
theorem C6_witness :
    wfileEmpty.size = 0 ∧
    scanFile ⟨[], [], []⟩ wfileEmpty = ⟨[], [], []⟩ ∧
    memcheck_merge.main ([] ++ wfileEmpty :: [wfile1]) = memcheck_merge.main ([] ++ [wfile1]) := by
  have h := C6_zero_size_skipped [] [wfile1] wfileEmpty ⟨[], [], []⟩ rfl
  exact ⟨rfl, h.1, h.2⟩

/-- C7 witness: re-merging the concrete first output yields the same
serialized error records. -/
theorem C7_witness :
    (idsF (parsedForest [wfile1])).Nodup ∧
    (∀ i ∈ idsF (parsedForest [wfile1]), 100 ≤ i) ∧
    Function.Injective (fun n : Nat => n + 1000) ∧
    (∀ n : Nat, 100 ≤ n + 1000) ∧
    wgout.size ≠ 0 ∧
    wgout.parsed = some (relabelF (fun n => n + 1000)
      (memcheck_merge.main [wfile1]).outputChildren) ∧
    (errsF (memcheck_merge.main [wgout]).outputChildren).map serN =
      (errsF (memcheck_merge.main [wfile1]).outputChildren).map serN := by
  have hinj : Function.Injective (fun n : Nat => n + 1000) := by
    intro a b hab
    simpa using hab
  refine ⟨wfile1_nodup, wfile1_ge, hinj, fun n => by omega, by decide, rfl, ?_⟩
  exact C7_idempotent [wfile1] (fun n => n + 1000) wgout wfile1_nodup wfile1_ge hinj
    (fun n => by show 100 ≤ n + 1000; omega) (by decide) rfl

/-- C8 witness: the concrete output splits into the fixed scaffold around
the serialized record region. -/
theorem C8_witness :
    (idsF (parsedForest [wfile1])).Nodup ∧
    (∀ i ∈ idsF (parsedForest [wfile1]), 100 ≤ i) ∧
    serDoc (memcheck_merge.main [wfile1]).outputChildren =
      serPRE ++ (serF (List.map stripTop (errsF (parsedForest [wfile1]))) ++ serPOST) :=
  ⟨wfile1_nodup, wfile1_ge, (C8_fixed_scaffold [wfile1] wfile1_nodup wfile1_ge).1⟩

/-- C10 witness: a concrete scan over a parsed file and a malformed file
logs no `OK` pass entry. -/
theorem C10_witness :
    ((scanFiles [wfile1, wfileBad]).log.filter isOkPass) = [] :=
  (C10_okPass_dead [wfile1, wfileBad]).1
